import Mathlib

/-!
Verification of the `chips` crate: shallow embedding of the instruction-cycle
engines (8080 byte arithmetic, TMS0800 ALU/control unit, 4004 engine, packed
register files, shift registers, HP ROM unpacking) and proofs of the spec's
testable properties against that embedding.

Machine integers are modelled as `Nat` with explicit wraparound (`% 2^w`)
exactly where the Rust code wraps (release-build semantics of the
`wrapping_*`/`overflowing_*` operations and of bit shifts).  Bitwise
operations (`&`, `|`, `^`, `<<`, `>>`) are carried over as the corresponding
`Nat` operations `&&&`, `|||`, `^^^`, `<<<`, `>>>`.
-/

set_option linter.unusedVariables false

set_option maxRecDepth 100000

namespace Chips

/-- `x & 0xF` on an unsigned integer is `x % 16`. -/
theorem and_fifteen (x : Nat) : x &&& 15 = x % 16 :=
  Nat.and_pow_two_sub_one_eq_mod x 4

/-- `u8::overflowing_add`: wrapped 8-bit sum together with the overflow flag. -/
def overflowing_add8 (a b : Nat) : Nat × Bool :=
  ((a + b) % 256, decide (255 < a + b))

/-- `u8::overflowing_sub`: wrapped 8-bit difference together with the borrow flag. -/
def overflowing_sub8 (a b : Nat) : Nat × Bool :=
  ((a + 256 - b % 256) % 256, decide (a < b))

/-- `src/cpu.rs` `execute_add`: add two bytes, returning
(result, carry, nibble carry). -/
def execute_add (byte1 byte2 : Nat) : Nat × Bool × Bool :=
  let rc := overflowing_add8 byte1 byte2
  let nibble_carry := decide (9 < (byte1 &&& 0xF) + (byte2 &&& 0xF))
  (rc.1, rc.2, nibble_carry)

/-- `src/cpu.rs` `execute_add_carry`: add two bytes plus a carry-in. -/
def execute_add_carry (byte1 byte2 : Nat) (carry : Bool) : Nat × Bool × Bool :=
  let rc1 := overflowing_add8 byte1 (if carry then 1 else 0)
  let rc2 := overflowing_add8 rc1.1 byte2
  let nibble_carry :=
    decide (9 < (byte1 &&& 0xF) + (byte2 &&& 0xF) + ((if carry then 1 else 0) &&& 0xF))
  (rc2.1, rc1.2 || rc2.2, nibble_carry)

/-- `src/cpu.rs` `execute_sub`: subtract two bytes. -/
def execute_sub (byte1 byte2 : Nat) : Nat × Bool × Bool :=
  let rc := overflowing_sub8 byte1 byte2
  let nibble_carry := decide (9 < (rc.1 &&& 0xF) + (byte2 &&& 0xF))
  (rc.1, rc.2, nibble_carry)

/-- `src/cpu.rs` `execute_sub_carry`: subtract two bytes and a borrow-in. -/
def execute_sub_carry (byte1 byte2 : Nat) (carry : Bool) : Nat × Bool × Bool :=
  let rc1 := overflowing_sub8 byte1 (if carry then 1 else 0)
  let rc2 := overflowing_sub8 rc1.1 byte2
  let nibble_carry :=
    decide (9 < (rc2.1 &&& 0xF) + (byte2 &&& 0xF) + ((if carry then 1 else 0) &&& 0xF))
  (rc2.1, rc1.2 || rc2.2, nibble_carry)

/-- `src/cpu.rs` `execute_daa`: decimal adjust after addition.  First the low
nibble is bumped by 6 when it exceeds 9 or a nibble carry is pending, then the
whole byte is bumped by `0x60` when it exceeds `0x90` or a carry is pending;
additions wrap as `u8::wrapping_add`. -/
def execute_daa (byte : Nat) (carry nibble_carry : Bool) : Nat × Bool × Bool :=
  let step1 : Nat × Bool :=
    if nibble_carry || decide (9 < byte &&& 0xF) then ((byte + 6) % 256, true)
    else (byte, false)
  let step2 : Nat × Bool :=
    if carry || decide (0x90 < step1.1) then ((step1.1 + 0x60) % 256, true)
    else (step1.1, false)
  (step2.1, step2.2, step1.2)

/-- Sanity checks against the crate's own doc tests for these helpers. -/
theorem execute_helpers_doc_tests :
    execute_add 0x18 0x19 = (0x31, false, true) ∧
    execute_add 0x83 0x94 = (0x17, true, false) ∧
    execute_add_carry 0x18 0x19 true = (0x32, false, true) ∧
    execute_sub 0x5 0x4 = (0x1, false, false) ∧
    execute_sub_carry 0x5 0x4 true = (0x0, false, false) ∧
    execute_daa 0x7D false true = (0x83, false, true) ∧
    execute_daa 0x79 false false = (0x79, false, false) ∧
    execute_daa 0xD7 true false = (0x37, true, false) ∧
    execute_daa 0x11 false true = (0x17, false, true) := by
  decide

/-- C4: for all byte pairs, `execute_add` returns the wrapped sum, the
9th-bit carry, and the decimal half-carry of the low nibbles. -/
theorem execute_add_spec (a b : Nat) (ha : a < 256) (hb : b < 256) :
    execute_add a b =
      ((a + b) % 256, decide (255 < a + b), decide (9 < a % 16 + b % 16)) := by
  simp [execute_add, overflowing_add8, and_fifteen]

/-- Witness for C4 at the concrete byte pair `(0x83, 0x94)`. -/
theorem execute_add_spec_witness :
    execute_add 0x83 0x94 =
      ((0x83 + 0x94) % 256, decide (255 < 0x83 + 0x94),
        decide (9 < 0x83 % 16 + 0x94 % 16)) :=
  execute_add_spec 0x83 0x94 (by decide) (by decide)

/-- C1 counterexample: `0x91` is an already-normalized BCD byte (both nibbles
at most 9), yet `execute_daa 0x91 false false` rewrites it to `0xF1` with the
carry set, because the code compares the byte against `0x90` rather than
`0x99`. -/
theorem daa_not_idempotent_at_0x91 :
    (0x91 : Nat) % 16 ≤ 9 ∧ (0x91 : Nat) / 16 ≤ 9 ∧
    execute_daa 0x91 false false = (0xF1, true, false) ∧
    execute_daa 0x91 false false ≠ (0x91, false, false) := by
  decide

/-- C1 (amended): decimal adjust is the identity, with both carries clear, on
every byte whose low nibble is at most 9 and whose value is at most `0x90`
(the bytes `0x91`–`0x99`, although valid BCD, are excluded because the code
adjusts any byte above `0x90`). -/
theorem daa_idempotent_on_low_bcd :
    ∀ b < 256, b % 16 ≤ 9 → b ≤ 0x90 →
      execute_daa b false false = (b, false, false) := by
  decide

/-- Witness for the amended C1 at the concrete byte `0x89`. -/
theorem daa_idempotent_on_low_bcd_witness :
    execute_daa 0x89 false false = (0x89, false, false) :=
  daa_idempotent_on_low_bcd 0x89 (by decide) (by decide) (by decide)

/-- `src/shifter.rs` shifting direction. -/
inductive Direction
  | Left
  | Right
deriving DecidableEq, Repr

/-- `Shifter64::MASK`: `u64::MAX >> (64 - NUM_BITS)`, i.e. `2^NUM_BITS - 1`. -/
def shifterMask (numBits : Nat) : Nat := 2 ^ numBits - 1

/-- `src/shifter.rs` `Shifter64::shift_with_bit`.  Left: shift left one bit
inside the mask and insert at bit 0.  Right: shift right one bit and insert
the new bit at position `NUM_BITS` (`1 << NUM_BITS`), exactly as the source
does. -/
def shift_with_bit (numBits data : Nat) (direction : Direction) (bit : Bool) : Nat :=
  let shifted :=
    match direction with
    | Direction.Left => (data <<< 1) &&& shifterMask numBits
    | Direction.Right => data >>> 1
  if bit then
    shifted ||| (match direction with
      | Direction.Left => 1
      | Direction.Right => 1 <<< numBits)
  else shifted

/-- `src/shifter.rs` `Shifter64::shift_with_nibble`.  Left: shift left four
bits inside the mask and insert at the low end.  Right: shift right four bits
and insert at bits `NUM_BITS-4 .. NUM_BITS-1`. -/
def shift_with_nibble (numBits data : Nat) (direction : Direction) (nibble : Nat) : Nat :=
  let shifted :=
    match direction with
    | Direction.Left => (data <<< 4) &&& shifterMask numBits
    | Direction.Right => data >>> 4
  shifted ||| (match direction with
    | Direction.Left => nibble
    | Direction.Right => nibble <<< (numBits - 4))

/-- `src/shifter.rs` `Shifter64::read_bit`: Left reads bit `NUM_BITS-1`,
Right reads bit 0. -/
def shifter_read_bit (numBits data : Nat) (direction : Direction) : Bool :=
  (match direction with
    | Direction.Left => data >>> (numBits - 1)
    | Direction.Right => data) &&& 1 == 1

/-- `src/shifter.rs` `Shifter64::read_nibble`: Left reads the top nibble
(bits `NUM_BITS-4 ..`), Right reads the low nibble. -/
def shifter_read_nibble (numBits data : Nat) (direction : Direction) : Nat :=
  (match direction with
    | Direction.Left => data >>> (numBits - 4)
    | Direction.Right => data) &&& 0xF

/-- C7 (code bug): on the width-44 shifter used for the TMS0800 registers,
shifting right with an inserted `true` bit writes the bit at position
`NUM_BITS` — one above the register's declared width — so the stored value
reaches `2^44`, violating the width invariant; the freshly "written left most
bit" (the function's own doc comment) cannot even be read back by
`read_bit(Left)`, which looks at bit `NUM_BITS - 1`. -/
theorem shift_with_bit_right_exceeds_width :
    shift_with_bit 44 0 Direction.Right true = 2 ^ 44 ∧
    ¬ shift_with_bit 44 0 Direction.Right true < 2 ^ 44 ∧
    shifter_read_bit 44 (shift_with_bit 44 0 Direction.Right true) Direction.Left = false := by
  decide

/-- `src/indexer.rs` `Indexer64::read_nibble`.  The `u8` index is multiplied
by 4 (wrapping at 256) and used as a `u64` shift distance (taken mod 64, the
release-build semantics of an overlong shift). -/
def Indexer64.read_nibble (data index : Nat) : Nat :=
  (data >>> (index * 4 % 256 % 64)) &&& 0xF

/-- `src/indexer.rs` `Indexer64::write_nibble`: clear the addressed nibble
with `data & !(0xF << index)` (complement taken within 64 bits) and OR the
new nibble in.  Shift distances are multiples of 4 bounded by 60, so no
`u64` truncation of the shifted masks occurs. -/
def Indexer64.write_nibble (data index nibble : Nat) : Nat :=
  let j := index * 4 % 256 % 64
  (data &&& ((2 ^ 64 - 1) ^^^ (0xF <<< j))) ||| (nibble <<< j)

/-- The effective shift distance of a nibble access is `4 * (index % 16)`. -/
theorem indexer64_shift_amount (index : Nat) :
    index * 4 % 256 % 64 = 4 * (index % 16) := by
  omega

/-- Bits of a value below 16 vanish from position 4 upward. -/
theorem testBit_eq_false_of_lt_16 {v t : Nat} (hv : v < 16) (ht : 4 ≤ t) :
    v.testBit t = false := by
  refine Nat.testBit_eq_false_of_lt (lt_of_lt_of_le hv ?_)
  calc (16 : Nat) = 2 ^ 4 := by norm_num
    _ ≤ 2 ^ t := Nat.pow_le_pow_right (by norm_num) ht

/-- Reading nibble `l` of the word written at nibble `r` gives the new nibble
when `l = r` and the old one otherwise (`r`, `l` in range, nibble in range). -/
theorem indexer64_write_read_aux (x v r l : Nat) (hv : v < 16) (hr : r < 16)
    (hl : l < 16) :
    ((x &&& ((2 ^ 64 - 1) ^^^ (0xF <<< (4 * r)))) ||| (v <<< (4 * r))) >>> (4 * l) &&& 0xF =
      if l = r then v else (x >>> (4 * l)) &&& 0xF := by
  apply Nat.eq_of_testBit_eq
  intro t
  by_cases ht : t < 4
  · simp only [Nat.testBit_land, Nat.testBit_lor, Nat.testBit_xor,
      Nat.testBit_shiftLeft, Nat.testBit_shiftRight, Nat.testBit_two_pow_sub_one]
    by_cases hlr : l = r
    · subst hlr
      have h1 : (4 * l + t < 64) = True := by simp; omega
      have h2 : (4 * l ≤ 4 * l + t) = True := by simp
      have h3 : 4 * l + t - 4 * l = t := by omega
      have h4 : (Nat.testBit 0xF t) = true := by
        interval_cases t <;> decide
      simp [h1, h2, h3, h4, ht]
    · have hwin : ¬ (4 * r ≤ 4 * l + t ∧ 4 * l + t - 4 * r < 4) := by omega
      have h1 : (4 * l + t < 64) = True := by simp; omega
      have hFbit : ∀ s, 4 ≤ s → Nat.testBit 0xF s = false := fun s hs =>
        testBit_eq_false_of_lt_16 (by norm_num) hs
      by_cases hle : 4 * r ≤ 4 * l + t
      · have hs : 4 ≤ 4 * l + t - 4 * r := by omega
        simp [h1, hle, hFbit _ hs, testBit_eq_false_of_lt_16 hv hs, hlr]
      · simp [h1, hle, hlr]
  · have ht4 : 4 ≤ t := by omega
    have hL : ∀ y : Nat, (y &&& 0xF).testBit t = false := by
      intro y
      simp [Nat.testBit_land, show Nat.testBit 0xF t = false from
        testBit_eq_false_of_lt_16 (by norm_num) ht4]
    by_cases hlr : l = r <;> simp [hlr, hL, testBit_eq_false_of_lt_16 hv ht4]

/-- Taking `% 16` twice is the same as taking it once. -/
theorem mod16_idem (n : Nat) : n % 16 % 16 = n % 16 :=
  Nat.mod_mod_of_dvd n (dvd_refl 16)

/-- C8: `Indexer64` access is taken modulo the 16-register count: reading at
any `u8` index equals reading at `index % 16`, and writing at any `u8` index
updates exactly register `index % 16`, leaving the other fifteen unchanged. -/
theorem indexer64_access_mod_16 (data index v : Nat) (hdata : data < 2 ^ 64)
    (hindex : index < 256) (hv : v < 16) :
    Indexer64.read_nibble data index = Indexer64.read_nibble data (index % 16) ∧
    Indexer64.read_nibble (Indexer64.write_nibble data index v) (index % 16) = v ∧
    ∀ j < 16, j ≠ index % 16 →
      Indexer64.read_nibble (Indexer64.write_nibble data index v) j =
        Indexer64.read_nibble data j := by
  have hr : index % 16 < 16 := Nat.mod_lt _ (by norm_num)
  refine ⟨?_, ?_, ?_⟩
  · unfold Indexer64.read_nibble
    rw [indexer64_shift_amount, indexer64_shift_amount, mod16_idem]
  · unfold Indexer64.read_nibble Indexer64.write_nibble
    simp only [indexer64_shift_amount, mod16_idem]
    rw [indexer64_write_read_aux data v (index % 16) (index % 16) hv hr hr]
    simp
  · intro j hj hne
    unfold Indexer64.read_nibble Indexer64.write_nibble
    simp only [indexer64_shift_amount, mod16_idem, Nat.mod_eq_of_lt hj]
    rw [indexer64_write_read_aux data v (index % 16) j hv hr hj]
    simp [hne]

/-- Witness for C8 at a concrete word, index 18 (accessing register 2) and
nibble 0xA. -/
theorem indexer64_access_mod_16_witness :
    Indexer64.read_nibble 0x123456789ABCDEF0 18 =
      Indexer64.read_nibble 0x123456789ABCDEF0 (18 % 16) ∧
    Indexer64.read_nibble (Indexer64.write_nibble 0x123456789ABCDEF0 18 0xA) (18 % 16) = 0xA ∧
    ∀ j < 16, j ≠ 18 % 16 →
      Indexer64.read_nibble (Indexer64.write_nibble 0x123456789ABCDEF0 18 0xA) j =
        Indexer64.read_nibble 0x123456789ABCDEF0 j :=
  indexer64_access_mod_16 0x123456789ABCDEF0 18 0xA (by norm_num) (by norm_num) (by norm_num)

/-- `src/rom/hp_rom.rs` `HP_ROM::unpack_data`: extract the 10-bit opcode at
`index` from the 320-byte packed stream.  The two byte reads, the
out-of-bounds panic on the second byte index, and the `u10` range check of
`u10::new` are modelled; `bits_from_first_byte = 8 - bit_start % 8`, and the
final value is `(first_byte >> (bit_start % 8)) | ((second_byte <<
bits_from_first_byte) & 0x3FF)` (Rust's `&` binds tighter than `|`). -/
def unpack_data (packed_data : Nat → Nat) (index : Nat) : Option Nat :=
  let bit_start := index * 10
  let first_byte_index := bit_start / 8
  let second_byte_index := first_byte_index + 1
  if 320 ≤ second_byte_index then none
  else
    let first_byte := packed_data first_byte_index
    let second_byte := packed_data second_byte_index
    let bits_from_first_byte := 8 - bit_start % 8
    let value :=
      (first_byte >>> (8 - bits_from_first_byte)) |||
        ((second_byte <<< bits_from_first_byte) &&& 0x3FF)
    if value < 1024 then some value else none

/-- Bit `j` of the packed bit stream: bit `j % 8` of byte `j / 8`. -/
def streamBit (packed_data : Nat → Nat) (j : Nat) : Bool :=
  (packed_data (j / 8)).testBit (j % 8)

/-- The value whose bit `t` (for `t < n`) is `f t`: `Σ_{t<n} 2^t·f t`. -/
def bits_value (f : Nat → Bool) : Nat → Nat
  | 0 => 0
  | n + 1 => bits_value f n + (if f n then 2 ^ n else 0)

/-- The 10-bit value occupying stream bit offsets `index*10 .. index*10+9`,
with stream bit `index*10` as bit 0 of the opcode — the claim's reading of
the packed instruction word format. -/
def unpack_spec (packed_data : Nat → Nat) (index : Nat) : Nat :=
  bits_value (fun t => streamBit packed_data (index * 10 + t)) 10

/-- `bits_value` only looks at the first `n` bits of its argument. -/
theorem bits_value_congr {f g : Nat → Bool} (n : Nat) (h : ∀ t < n, f t = g t) :
    bits_value f n = bits_value g n := by
  induction n with
  | zero => rfl
  | succ n ih =>
    unfold bits_value
    rw [ih fun t ht => h t (by omega), h n (by omega)]

/-- Summing the bits of `x` below `n` recovers `x % 2^n`. -/
theorem bits_value_testBit (x : Nat) (n : Nat) :
    bits_value (fun t => x.testBit t) n = x % 2 ^ n := by
  induction n with
  | zero => simp [bits_value, Nat.mod_one]
  | succ n ih =>
    unfold bits_value
    rw [ih, Nat.mod_pow_succ, Nat.testBit_to_div_mod]
    rcases Nat.mod_two_eq_zero_or_one (x / 2 ^ n) with h | h <;> simp [h]

/-- Bits of a value below 256 vanish from position 8 upward. -/
theorem testBit_eq_false_of_lt_256 {v t : Nat} (hv : v < 256) (ht : 8 ≤ t) :
    v.testBit t = false := by
  refine Nat.testBit_eq_false_of_lt (lt_of_lt_of_le hv ?_)
  calc (256 : Nat) = 2 ^ 8 := by norm_num
    _ ≤ 2 ^ t := Nat.pow_le_pow_right (by norm_num) ht

/-- C9: for every index below 256, `unpack_data` succeeds and returns exactly
the 10-bit value at stream bit offsets `index*10 .. index*10+9`, low stream
bits first. -/
theorem unpack_data_extracts_bits (packed_data : Nat → Nat)
    (hb : ∀ k < 320, packed_data k < 256) (index : Nat) (hi : index < 256) :
    unpack_data packed_data index = some (unpack_spec packed_data index) := by
  have hs8 : index * 10 % 8 < 8 := Nat.mod_lt _ (by norm_num)
  have hfb : index * 10 = 8 * (index * 10 / 8) + index * 10 % 8 := by omega
  have hbound : index * 10 / 8 + 1 < 320 := by omega
  set s := index * 10 % 8 with hs_def
  set fb := index * 10 / 8 with hfb_def
  have hb1 : packed_data fb < 256 := hb fb (by omega)
  have hb2 : packed_data (fb + 1) < 256 := hb (fb + 1) (by omega)
  set b1 := packed_data fb
  set b2 := packed_data (fb + 1)
  set X := b1 ||| (b2 <<< 8) with hX_def
  have hXbit : ∀ k, X.testBit k =
      if k < 8 then b1.testBit k else b2.testBit (k - 8) := by
    intro k
    rw [hX_def, Nat.testBit_lor, Nat.testBit_shiftLeft]
    by_cases hk : k < 8
    · simp [hk, Nat.not_le.mpr hk]
    · have h8k : 8 ≤ k := Nat.le_of_not_lt hk
      have hb1f : b1.testBit k = false := testBit_eq_false_of_lt_256 hb1 h8k
      simp [hk, hb1f, h8k]
  have hvalue : (b1 >>> (8 - (8 - s))) ||| ((b2 <<< (8 - s)) &&& 0x3FF) =
      (X >>> s) &&& 1023 := by
    have h88 : 8 - (8 - s) = s := by omega
    rw [h88]
    apply Nat.eq_of_testBit_eq
    intro t
    have h1023 : (1023 : Nat).testBit t = decide (t < 10) := by
      have h : (1023 : Nat) = 2 ^ 10 - 1 := by norm_num
      rw [h, Nat.testBit_two_pow_sub_one]
    simp only [Nat.testBit_lor, Nat.testBit_land, Nat.testBit_shiftLeft,
      Nat.testBit_shiftRight, h1023]
    rw [hXbit (s + t)]
    by_cases ht10 : t < 10
    · by_cases h8 : 8 ≤ s + t
      · have hb1f : b1.testBit (s + t) = false := testBit_eq_false_of_lt_256 hb1 h8
        have hle : 8 - s ≤ t := by omega
        have heq : t - (8 - s) = s + t - 8 := by omega
        have hn8 : ¬ s + t < 8 := by omega
        simp [hb1f, hle, heq, ht10, hn8]
      · have hlt : ¬ (8 - s ≤ t) := by omega
        simp [hlt, ht10, Nat.not_le.mp h8]
    · have h8 : 8 ≤ s + t := by omega
      have hb1f : b1.testBit (s + t) = false := testBit_eq_false_of_lt_256 hb1 h8
      simp [hb1f, ht10]
  have hspec : unpack_spec packed_data index = (X >>> s) % 2 ^ 10 := by
    rw [unpack_spec, ← bits_value_testBit (X >>> s) 10]
    apply bits_value_congr
    intro t ht
    rw [Nat.testBit_shiftRight, hXbit (s + t)]
    by_cases h8 : s + t < 8
    · have hdiv : (index * 10 + t) / 8 = fb := by omega
      have hmod : (index * 10 + t) % 8 = s + t := by omega
      simp [streamBit, hdiv, hmod, h8]
    · have hdiv : (index * 10 + t) / 8 = fb + 1 := by omega
      have hmod : (index * 10 + t) % 8 = s + t - 8 := by omega
      simp [streamBit, hdiv, hmod, h8]
  have hmask : (X >>> s) &&& 1023 = (X >>> s) % 2 ^ 10 := by
    have : (1023 : Nat) = 2 ^ 10 - 1 := by norm_num
    rw [this, Nat.and_pow_two_sub_one_eq_mod]
  rw [unpack_data]
  simp only [if_neg (by omega : ¬ 320 ≤ index * 10 / 8 + 1)]
  rw [← hfb_def, ← hs_def, hvalue, hmask, hspec]
  have hlt : (X >>> s) % 2 ^ 10 < 1024 := by
    have := Nat.mod_lt (X >>> s) (show 0 < 2 ^ 10 by norm_num)
    omega
  simp only [if_pos hlt]

/-- Witness for C9 at a concrete packed stream and index 3 (an opcode that
straddles a byte boundary with shift 6). -/
theorem unpack_data_extracts_bits_witness :
    unpack_data (fun k => (3 * k + 5) % 256) 3 =
      some (unpack_spec (fun k => (3 * k + 5) % 256) 3) :=
  unpack_data_extracts_bits (fun k => (3 * k + 5) % 256)
    (fun k _ => Nat.mod_lt _ (by norm_num)) 3 (by norm_num)

/-- Modelled from the spec: the `Shifter16` register primitive used for the
TMS0800 word-select, flag and `d` shifters is not present under `src/` (only
`Shifter64` and `PulsedShifter16` are); per §3 of the spec it is a
"shift-style register" of fixed bit width whose shifting "preserves total
width, discarding or padding at the configured boundary", so a Right shift
inserts the new bit at the top position `NUM_BITS - 1`. -/
def shifter16_shift_with_bit (numBits data : Nat) (direction : Direction) (bit : Bool) : Nat :=
  match direction with
  | Direction.Left => ((data <<< 1) &&& (2 ^ numBits - 1)) ||| (if bit then 1 else 0)
  | Direction.Right => (data >>> 1) ||| (if bit then 1 <<< (numBits - 1) else 0)

/-- Modelled from the spec: `Shifter16::read_bit`, reading the end bit named
by the direction (Left the top bit, Right the bottom bit), as in the
`Shifter64` source. -/
def shifter16_read_bit (numBits data : Nat) (direction : Direction) : Bool :=
  (match direction with
    | Direction.Left => data >>> (numBits - 1)
    | Direction.Right => data) &&& 1 == 1

/-- Modelled from the spec: `Shifter16::read_and_shift_bit` reads the end bit
and simultaneously shifts the register, feeding `in_bit` in at the opposite
end; returns the bit read together with the new register value. -/
def read_and_shift_bit (numBits data : Nat) (direction : Direction) (in_bit : Bool) :
    Bool × Nat :=
  (shifter16_read_bit numBits data direction,
    shifter16_shift_with_bit numBits data direction in_bit)

/-- `src/tms0800/alu.rs` micro-operation kinds. -/
inductive Operation
  | Add
  | Shr
  | Shl
  | Subtract
  | ExchangeAB
  | WaitForKey
deriving DecidableEq, Repr

/-- `src/tms0800/alu.rs` operand/destination selector. -/
inductive Arg
  | A
  | B
  | C
  | K
  | None
deriving DecidableEq, Repr

/-- `src/tms0800/alu.rs` decoded micro-instruction descriptor. -/
structure Instruction where
  operation : Operation
  arg1 : Arg
  arg2 : Arg
  dest : Arg
  hex : Bool
deriving DecidableEq, Repr

/-- `src/tms0800/alu.rs` `decode_instructions`: decode the packed bit-plane
control word (13 32-bit planes) into the 32-entry descriptor table; later
planes override earlier ones exactly as the source's sequence of `if`s. -/
def decode_instructions (alu_map : Nat → Nat) (i : Nat) : Instruction :=
  let ins : Instruction :=
    { operation := Operation.Add, arg1 := Arg.None, arg2 := Arg.None,
      dest := Arg.None, hex := false }
  let ins := if (alu_map 0x0 >>> i) &&& 1 = 1 then { ins with operation := Operation.Shr } else ins
  let ins := if (alu_map 0x1 >>> i) &&& 1 = 1 then { ins with operation := Operation.Shl } else ins
  let ins := if (alu_map 0x2 >>> i) &&& 1 = 1 then { ins with operation := Operation.Subtract } else ins
  let ins := if (alu_map 0x3 >>> i) &&& 1 = 1 then { ins with hex := true } else ins
  let ins := if (alu_map 0x4 >>> i) &&& 1 = 1 then { ins with arg1 := Arg.C } else ins
  let ins := if (alu_map 0x5 >>> i) &&& 1 = 1 then { ins with arg1 := Arg.A } else ins
  let ins := if (alu_map 0x6 >>> i) &&& 1 = 1 then { ins with arg2 := Arg.B } else ins
  let ins := if (alu_map 0x7 >>> i) &&& 1 = 1 then { ins with arg2 := Arg.K } else ins
  let ins := if (alu_map 0x8 >>> i) &&& 1 = 1 then { ins with dest := Arg.A } else ins
  let ins := if (alu_map 0x9 >>> i) &&& 1 = 1 then { ins with dest := Arg.C } else ins
  let ins := if (alu_map 0xA >>> i) &&& 1 = 1 then { ins with dest := Arg.B } else ins
  let ins := if (alu_map 0xB >>> i) &&& 1 = 1 then { ins with operation := Operation.ExchangeAB } else ins
  let ins := if (alu_map 0xC >>> i) &&& 1 = 1 then { ins with operation := Operation.WaitForKey } else ins
  ins

/-- `src/tms0800/alu.rs` `add`: one BCD/hex digit addition with carry-in,
returning the digit and the carry-out (base 10 unless `hex`). -/
def alu_add (num1 num2 : Nat) (carry : Bool) (hex : Bool) : Nat × Bool :=
  let result := num1 + num2 + (if carry then 1 else 0)
  let ten := if hex then 16 else 10
  if ten ≤ result then (result - ten, true) else (result, false)

/-- `src/tms0800/alu.rs` `sub`: one BCD/hex digit subtraction with borrow-in.
The signed intermediate is modelled with `Int`; on a negative result the
source computes `(result + ten) as u8` (wrap modulo 256) before `u4::new`,
which for normal digit operands (each below the base) is already in `u4`
range. -/
def alu_sub (num1 num2 : Nat) (borrow : Bool) (hex : Bool) : Nat × Bool :=
  let ten : Int := if hex then 16 else 10
  let result : Int := (num1 : Int) - (num2 : Int) - (if borrow then 1 else 0)
  if result < 0 then (((result + ten) % 256).toNat, true) else (result.toNat, false)

/-- Operand fetch for a micro-instruction argument (`Arg::None` reads 0). -/
def argValue (arg : Arg) (a b c k : Nat) : Nat :=
  match arg with
  | Arg.A => a
  | Arg.B => b
  | Arg.C => c
  | Arg.K => k
  | Arg.None => 0

/-- The per-pass mutable state of `ALU::run_cycle`'s digit loop: the three
registers, the walking word-select register, the serial carry, the one-digit
shift buffer and the constant latch flag. -/
structure ALUPassState where
  a : Nat
  b : Nat
  c : Nat
  ws : Nat
  carry : Bool
  prev_nibble : Nat
  first_time : Bool
deriving DecidableEq, Repr

/-- The `match instruction.operation`/`match instruction.dest` body of the
masked branch of `ALU::run_cycle`'s digit loop, acting on the three digit
values, the injected constant, the shift buffer and the serial carry;
returns the new digits, carry and shift buffer. -/
def applyOp (ins : Instruction) (a0 b0 c0 k prev : Nat) (carry : Bool) :
    Nat × Nat × Nat × Bool × Nat :=
  match ins.operation with
  | Operation.Add | Operation.WaitForKey | Operation.Subtract =>
    let arg1 := argValue ins.arg1 a0 b0 c0 k
    let arg2 := argValue ins.arg2 a0 b0 c0 k
    let result :=
      match ins.operation with
      | Operation.Subtract => alu_sub arg1 arg2 carry ins.hex
      | _ => alu_add arg1 arg2 carry ins.hex
    match ins.dest with
    | Arg.A => (result.1, b0, c0, result.2, prev)
    | Arg.B => (a0, result.1, c0, result.2, prev)
    | Arg.C => (a0, b0, result.1, result.2, prev)
    | _ => (a0, b0, c0, result.2, prev)
  | Operation.ExchangeAB => (b0, a0, c0, carry, prev)
  | Operation.Shl | Operation.Shr =>
    match ins.dest with
    | Arg.A => (prev, b0, c0, carry, a0)
    | Arg.B => (a0, prev, c0, carry, b0)
    | Arg.C => (a0, b0, prev, carry, c0)
    | _ => (a0, b0, c0, carry, prev)

/-- One digit pass of `src/tms0800/alu.rs` `ALU::run_cycle`: read the end
digits of A, B and C, consume one word-select bit, apply the decoded
micro-operation when that bit is set (injecting the constant only while
`first_time` is still set, and clearing `first_time`), then rotate the three
registers by one digit. -/
def alu_pass (instrs : Nat → Instruction) (constants : Nat → Nat)
    (instruction mask : Nat) (direction : Direction) (s : ALUPassState) : ALUPassState :=
  let a0 := shifter_read_nibble 44 s.a direction
  let b0 := shifter_read_nibble 44 s.b direction
  let c0 := shifter_read_nibble 44 s.c direction
  let rs := read_and_shift_bit 11 s.ws direction false
  let body : Nat × Nat × Nat × Bool × Nat × Bool :=
    if rs.1 then
      let k := if s.first_time then constants mask else 0
      let r := applyOp (instrs instruction) a0 b0 c0 k s.prev_nibble s.carry
      (r.1, r.2.1, r.2.2.1, r.2.2.2.1, r.2.2.2.2, false)
    else
      (a0, b0, c0, s.carry, s.prev_nibble, s.first_time)
  { a := shift_with_nibble 44 s.a direction body.1
    b := shift_with_nibble 44 s.b direction body.2.1
    c := shift_with_nibble 44 s.c direction body.2.2.1
    ws := rs.2
    carry := body.2.2.2.1
    prev_nibble := body.2.2.2.2.1
    first_time := body.2.2.2.2.2 }

/-- `n` consecutive digit passes of the ALU loop. -/
def alu_passes (instrs : Nat → Instruction) (constants : Nat → Nat)
    (instruction mask : Nat) (direction : Direction) : Nat → ALUPassState → ALUPassState
  | 0, s => s
  | n + 1, s =>
    alu_passes instrs constants instruction mask direction n
      (alu_pass instrs constants instruction mask direction s)

/-- `src/tms0800/alu.rs` `ALU`: three 44-bit digit-serial registers, the
decoded micro-instruction table and the constants table. -/
structure ALU where
  a : Nat
  b : Nat
  c : Nat
  instructions : Nat → Instruction
  constants : Nat → Nat

/-- `src/tms0800/alu.rs` `ALU::run_cycle`: pick the shift direction from the
instruction number (`0x17..=0x19` shift left, everything else right), then
run 11 digit passes starting with carry clear and the constant latch armed;
returns the updated ALU and the final serial carry. -/
def ALU.run_cycle (alu : ALU) (word_select instruction mask : Nat) : ALU × Bool :=
  let direction :=
    if 0x17 ≤ instruction ∧ instruction ≤ 0x19 then Direction.Left else Direction.Right
  let s0 : ALUPassState :=
    { a := alu.a, b := alu.b, c := alu.c, ws := word_select,
      carry := false, prev_nibble := 0, first_time := true }
  let sf := alu_passes alu.instructions alu.constants instruction mask direction 11 s0
  ({ alu with a := sf.a, b := sf.b, c := sf.c }, sf.carry)

/-- The word-select bit consumed at digit pass `p` (0-based), read from the
original 11-bit word-select value: Right-direction instructions consume bits
0, 1, …, 10 in order, Left-direction instructions bits 10, 9, …, 0. -/
def maskBitAt (direction : Direction) (w p : Nat) : Bool :=
  match direction with
  | Direction.Right => w.testBit p
  | Direction.Left => w.testBit (10 - p)

/-- Pass `p` is the first digit pass whose word-select bit is set. -/
def isFirstMasked (direction : Direction) (w p : Nat) : Prop :=
  maskBitAt direction w p = true ∧ ∀ q < p, maskBitAt direction w q = false

instance (direction : Direction) (w p : Nat) : Decidable (isFirstMasked direction w p) := by
  unfold isFirstMasked
  infer_instance

/-- Spec-side per-pass state: the three registers, the serial carry and the
one-digit shift buffer (no walking word-select copy, no constant latch). -/
structure SpecState where
  a : Nat
  b : Nat
  c : Nat
  carry : Bool
  prev_nibble : Nat
deriving DecidableEq, Repr

/-- Spec-side digit pass `p`: gate the micro-operation on the word-select bit
belonging to pass `p`, and inject the constant operand exactly at the first
masked pass (zero at every other pass) — the spec's wording of the
single-cycle constant latch, amended from "first digit pass" to "first
masked digit pass". -/
def alu_spec_pass (instrs : Nat → Instruction) (constants : Nat → Nat)
    (instruction mask : Nat) (direction : Direction) (w p : Nat) (s : SpecState) : SpecState :=
  let a0 := shifter_read_nibble 44 s.a direction
  let b0 := shifter_read_nibble 44 s.b direction
  let c0 := shifter_read_nibble 44 s.c direction
  let body : Nat × Nat × Nat × Bool × Nat :=
    if maskBitAt direction w p then
      let k := if isFirstMasked direction w p then constants mask else 0
      applyOp (instrs instruction) a0 b0 c0 k s.prev_nibble s.carry
    else
      (a0, b0, c0, s.carry, s.prev_nibble)
  { a := shift_with_nibble 44 s.a direction body.1
    b := shift_with_nibble 44 s.b direction body.2.1
    c := shift_with_nibble 44 s.c direction body.2.2.1
    carry := body.2.2.2.1
    prev_nibble := body.2.2.2.2 }

/-- `n` spec-side digit passes starting at pass index `p`. -/
def alu_spec_passes (instrs : Nat → Instruction) (constants : Nat → Nat)
    (instruction mask : Nat) (direction : Direction) (w : Nat) :
    Nat → Nat → SpecState → SpecState
  | p, 0, s => s
  | p, n + 1, s =>
    alu_spec_passes instrs constants instruction mask direction w (p + 1) n
      (alu_spec_pass instrs constants instruction mask direction w p s)

/-- Spec-side rendition of `ALU::run_cycle`: 11 gated digit passes over the
original word-select value, constant injected at the first masked pass. -/
def ALU.run_cycle_spec (alu : ALU) (word_select instruction mask : Nat) : ALU × Bool :=
  let direction :=
    if 0x17 ≤ instruction ∧ instruction ≤ 0x19 then Direction.Left else Direction.Right
  let s0 : SpecState :=
    { a := alu.a, b := alu.b, c := alu.c, carry := false, prev_nibble := 0 }
  let sf := alu_spec_passes alu.instructions alu.constants instruction mask direction
    word_select 0 11 s0
  ({ alu with a := sf.a, b := sf.b, c := sf.c }, sf.carry)

/-- The word-select register's value after `p` serial shifts. -/
def wsAt (direction : Direction) (w p : Nat) : Nat :=
  match direction with
  | Direction.Right => w >>> p
  | Direction.Left => (w <<< p) &&& (2 ^ 11 - 1)

/-- Reading the end bit is reading bit `n` of the value. -/
theorem read_low_bit_eq_testBit (x n : Nat) : ((x >>> n) &&& 1 == 1) = x.testBit n := by
  rcases h : x.testBit n with hf | ht
  · rw [Nat.testBit_to_div_mod] at h
    have hx : x / 2 ^ n % 2 = 0 := by
      rcases Nat.mod_two_eq_zero_or_one (x / 2 ^ n) with h2 | h2
      · exact h2
      · simp [h2] at h
    have : (x >>> n) &&& 1 = 0 := by
      rw [Nat.shiftRight_eq_div_pow, show (1 : Nat) = 2 ^ 1 - 1 by norm_num,
        Nat.and_pow_two_sub_one_eq_mod]
      simpa using hx
    simp [this]
  · rw [Nat.testBit_to_div_mod] at h
    have hx : x / 2 ^ n % 2 = 1 := of_decide_eq_true h
    have : (x >>> n) &&& 1 = 1 := by
      rw [Nat.shiftRight_eq_div_pow, show (1 : Nat) = 2 ^ 1 - 1 by norm_num,
        Nat.and_pow_two_sub_one_eq_mod]
      simpa using hx
    simp [this]

/-- The bit read from the walking word-select register at pass `p` is the
pass's word-select bit. -/
theorem wsAt_read (direction : Direction) (w p : Nat) (hp : p ≤ 10) :
    shifter16_read_bit 11 (wsAt direction w p) direction = maskBitAt direction w p := by
  cases direction with
  | Right =>
    show ((w >>> p) &&& 1 == 1) = maskBitAt Direction.Right w p
    exact read_low_bit_eq_testBit w p
  | Left =>
    show (((w <<< p) &&& (2 ^ 11 - 1)) >>> 10 &&& 1 == 1) = _
    rw [read_low_bit_eq_testBit]
    show ((w <<< p) &&& (2 ^ 11 - 1)).testBit 10 = w.testBit (10 - p)
    rw [Nat.testBit_land, Nat.testBit_two_pow_sub_one, Nat.testBit_shiftLeft]
    simp [hp, Nat.le_of_lt_succ]

/-- Shifting the walking word-select register advances it one pass. -/
theorem wsAt_step (direction : Direction) (w p : Nat) :
    shifter16_shift_with_bit 11 (wsAt direction w p) direction false = wsAt direction w (p + 1) := by
  cases direction with
  | Right =>
    show ((w >>> p) >>> 1) ||| 0 = w >>> (p + 1)
    rw [Nat.or_zero, ← Nat.shiftRight_add]
  | Left =>
    show (((w <<< p) &&& (2 ^ 11 - 1)) <<< 1) &&& (2 ^ 11 - 1) ||| 0 = (w <<< (p + 1)) &&& (2 ^ 11 - 1)
    rw [Nat.or_zero]
    rw [Nat.shiftLeft_eq, Nat.shiftLeft_eq, Nat.shiftLeft_eq,
      Nat.and_pow_two_sub_one_eq_mod, Nat.and_pow_two_sub_one_eq_mod,
      Nat.and_pow_two_sub_one_eq_mod]
    have key : ∀ x : Nat, (x % 2 ^ 11 * 2) % 2 ^ 11 = (x * 2) % 2 ^ 11 := by
      intro x
      conv_lhs => rw [Nat.mul_mod]
      conv_rhs => rw [Nat.mul_mod]
      rw [Nat.mod_mod_of_dvd _ (dvd_refl _)]
    rw [show (2 : Nat) ^ (p + 1) = 2 ^ p * 2 by ring, ← Nat.mul_assoc, pow_one]
    exact key (w * 2 ^ p)

/-- Coupling between a code-side loop state about to run pass `p` and a
spec-side state: registers, carry and shift buffer agree, the walking
word-select holds the `p`-times-shifted value, and the constant latch is
armed exactly while no masked pass has happened yet. -/
def RelAt (direction : Direction) (w p : Nat) (s : ALUPassState) (t : SpecState) : Prop :=
  s.a = t.a ∧ s.b = t.b ∧ s.c = t.c ∧ s.carry = t.carry ∧
  s.prev_nibble = t.prev_nibble ∧ s.ws = wsAt direction w p ∧
  s.first_time = decide (∀ q < p, maskBitAt direction w q = false)

/-- One code-side pass preserves the coupling with the matching spec pass. -/
theorem alu_pass_rel (instrs : Nat → Instruction) (constants : Nat → Nat)
    (instruction mask : Nat) (direction : Direction) (w p : Nat) (hp : p ≤ 10)
    (s : ALUPassState) (t : SpecState) (h : RelAt direction w p s t) :
    RelAt direction w (p + 1) (alu_pass instrs constants instruction mask direction s)
      (alu_spec_pass instrs constants instruction mask direction w p t) := by
  obtain ⟨ha, hb, hc, hcar, hprev, hws, hft⟩ := h
  unfold alu_pass alu_spec_pass read_and_shift_bit
  rw [hws, wsAt_read direction w p hp, wsAt_step direction w p, ha, hb, hc, hcar, hprev, hft]
  by_cases hbit : maskBitAt direction w p = true
  · by_cases hball : ∀ q < p, maskBitAt direction w q = false
    · have hfm : isFirstMasked direction w p := ⟨hbit, hball⟩
      have hnew : ¬ ∀ q < p + 1, maskBitAt direction w q = false := by
        intro hall
        have := hall p (by omega)
        rw [hbit] at this
        simp at this
      refine ⟨?_, ?_, ?_, ?_, ?_, ?_, ?_⟩ <;> simp [hbit, hfm, hnew, if_pos hball]
    · have hfm : ¬ isFirstMasked direction w p := fun hf => hball hf.2
      have hnew : ¬ ∀ q < p + 1, maskBitAt direction w q = false := by
        intro hall
        exact hball fun q hq => hall q (by omega)
      refine ⟨?_, ?_, ?_, ?_, ?_, ?_, ?_⟩ <;> simp [hbit, hfm, hnew, if_neg hball]
  · have hbit' : maskBitAt direction w p = false := by
      simpa using hbit
    have hiff : (∀ q < p + 1, maskBitAt direction w q = false) ↔
        (∀ q < p, maskBitAt direction w q = false) := by
      constructor
      · intro hall q hq
        exact hall q (by omega)
      · intro hall q hq
        rcases Nat.lt_or_ge q p with h | h
        · exact hall q h
        · have : q = p := by omega
          rw [this, hbit']
    refine ⟨?_, ?_, ?_, ?_, ?_, ?_, ?_⟩ <;>
      simp [hbit', decide_eq_decide.mpr hiff]

/-- Running the remaining `n` passes from coupled states yields the same
registers and carry. -/
theorem alu_passes_rel (instrs : Nat → Instruction) (constants : Nat → Nat)
    (instruction mask : Nat) (direction : Direction) (w : Nat) :
    ∀ n p s t, p + n = 11 → RelAt direction w p s t →
      (alu_passes instrs constants instruction mask direction n s).a =
        (alu_spec_passes instrs constants instruction mask direction w p n t).a ∧
      (alu_passes instrs constants instruction mask direction n s).b =
        (alu_spec_passes instrs constants instruction mask direction w p n t).b ∧
      (alu_passes instrs constants instruction mask direction n s).c =
        (alu_spec_passes instrs constants instruction mask direction w p n t).c ∧
      (alu_passes instrs constants instruction mask direction n s).carry =
        (alu_spec_passes instrs constants instruction mask direction w p n t).carry := by
  intro n
  induction n with
  | zero =>
    intro p s t hpn h
    obtain ⟨ha, hb, hc, hcar, _, _, _⟩ := h
    exact ⟨ha, hb, hc, hcar⟩
  | succ n ih =>
    intro p s t hpn h
    have hstep := alu_pass_rel instrs constants instruction mask direction w p
      (by omega) s t h
    exact ih (p + 1) _ _ (by omega) hstep

/-- `ALU::run_cycle` coincides with the spec-side rendition: the constant is
injected exactly at the first masked digit pass. -/
theorem run_cycle_eq_spec (alu : ALU) (word_select instruction mask : Nat)
    (hw : word_select < 2 ^ 11) :
    ALU.run_cycle alu word_select instruction mask =
      ALU.run_cycle_spec alu word_select instruction mask := by
  unfold ALU.run_cycle ALU.run_cycle_spec
  have hrel : RelAt
      (if 0x17 ≤ instruction ∧ instruction ≤ 0x19 then Direction.Left else Direction.Right)
      word_select 0
      { a := alu.a, b := alu.b, c := alu.c, ws := word_select,
        carry := false, prev_nibble := 0, first_time := true }
      { a := alu.a, b := alu.b, c := alu.c, carry := false, prev_nibble := 0 } := by
    refine ⟨rfl, rfl, rfl, rfl, rfl, ?_, by simp⟩
    cases hd : (if 0x17 ≤ instruction ∧ instruction ≤ 0x19 then Direction.Left
      else Direction.Right) with
    | Right => show word_select = word_select >>> 0; rw [Nat.shiftRight_zero]
    | Left =>
      show word_select = (word_select <<< 0) &&& (2 ^ 11 - 1)
      rw [Nat.shiftLeft_zero, Nat.and_pow_two_sub_one_eq_mod, Nat.mod_eq_of_lt hw]
  obtain ⟨ha, hb, hc, hcar⟩ := alu_passes_rel alu.instructions alu.constants instruction mask
    (if 0x17 ≤ instruction ∧ instruction ≤ 0x19 then Direction.Left else Direction.Right)
    word_select 11 0 _ _ (by omega) hrel
  simp only []
  rw [ha, hb, hc, hcar]

/-- `>>>` distributes over `|||`. -/
theorem shiftRight_lor (a b n : Nat) : (a ||| b) >>> n = (a >>> n) ||| (b >>> n) := by
  apply Nat.eq_of_testBit_eq
  intro t
  simp [Nat.testBit_shiftRight, Nat.testBit_lor]

/-- ORing a value below `2^n` into a left-shift by `n` is addition. -/
theorem shiftLeft_lor_eq_add (x y n : Nat) (hy : y < 2 ^ n) :
    (x <<< n) ||| y = x <<< n + y := by
  have hmod : ((x <<< n) ||| y) % 2 ^ n = y := by
    rw [← Nat.and_pow_two_sub_one_eq_mod, Nat.and_distrib_right,
      Nat.and_pow_two_sub_one_eq_mod, Nat.and_pow_two_sub_one_eq_mod,
      Nat.shiftLeft_eq, Nat.mul_mod_left, Nat.mod_eq_of_lt hy]
    simp
  have hdiv : ((x <<< n) ||| y) / 2 ^ n = x := by
    rw [← Nat.shiftRight_eq_div_pow, shiftRight_lor, Nat.shiftLeft_shiftRight,
      Nat.shiftRight_eq_div_pow, Nat.div_eq_of_lt hy]
    simp
  calc (x <<< n) ||| y
      = 2 ^ n * (((x <<< n) ||| y) / 2 ^ n) + ((x <<< n) ||| y) % 2 ^ n :=
        (Nat.div_add_mod _ _).symm
    _ = 2 ^ n * x + y := by rw [hdiv, hmod]
    _ = x <<< n + y := by rw [Nat.shiftLeft_eq]; ring

/-- The identity rotation a register undergoes at an unmasked digit pass:
shift one digit out of the chosen end and feed it back in at the other. -/
def regShift (direction : Direction) (x : Nat) : Nat :=
  shift_with_nibble 44 x direction (shifter_read_nibble 44 x direction)

/-- `n`-fold identity rotation. -/
def regShiftN (direction : Direction) : Nat → Nat → Nat
  | 0, x => x
  | n + 1, x => regShiftN direction n (regShift direction x)

/-- Arithmetic form of one Right-direction digit rotation of a 44-bit value. -/
def rotR (x : Nat) : Nat := x / 16 + x % 16 * 2 ^ 40

/-- Arithmetic form of one Left-direction digit rotation of a 44-bit value. -/
def rotL (x : Nat) : Nat := x % 2 ^ 40 * 16 + x / 2 ^ 40 % 16

/-- One rotation in either direction, arithmetic form. -/
def rot (direction : Direction) (x : Nat) : Nat :=
  match direction with
  | Direction.Right => rotR x
  | Direction.Left => rotL x

/-- `n`-fold arithmetic rotation. -/
def rotN (direction : Direction) : Nat → Nat → Nat
  | 0, x => x
  | n + 1, x => rotN direction n (rot direction x)

/-- Below the register width, the shifter rotation is the arithmetic one. -/
theorem regShift_eq_rot (direction : Direction) (x : Nat) (hx : x < 2 ^ 44) :
    regShift direction x = rot direction x := by
  cases direction with
  | Right =>
    show (x >>> 4) ||| ((x &&& 0xF) <<< 40) = rotR x
    rw [Nat.lor_comm, shiftLeft_lor_eq_add _ _ _ (by
      rw [Nat.shiftRight_eq_div_pow]
      omega)]
    rw [Nat.shiftLeft_eq, Nat.shiftRight_eq_div_pow, and_fifteen, rotR]
    ring
  | Left =>
    show ((x <<< 4) &&& shifterMask 44) ||| ((x >>> 40) &&& 0xF) = rotL x
    have h1 : (x <<< 4) &&& shifterMask 44 = (x % 2 ^ 40) <<< 4 := by
      rw [shifterMask, Nat.and_pow_two_sub_one_eq_mod, Nat.shiftLeft_eq, Nat.shiftLeft_eq]
      rw [show (2 : Nat) ^ 44 = 2 ^ 40 * 2 ^ 4 by norm_num]
      exact Nat.mul_mod_mul_right (2 ^ 4) x (2 ^ 40)
    have h2 : (x >>> 40) &&& 0xF < 2 ^ 4 := by
      rw [and_fifteen]
      omega
    rw [h1, shiftLeft_lor_eq_add _ _ _ h2, Nat.shiftLeft_eq, and_fifteen,
      Nat.shiftRight_eq_div_pow, rotL]

/-- Arithmetic rotations stay below the register width. -/
theorem rot_lt (direction : Direction) (x : Nat) (hx : x < 2 ^ 44) :
    rot direction x < 2 ^ 44 := by
  cases direction <;> simp only [rot, rotR, rotL] <;> omega

/-- Iterated arithmetic rotations stay below the register width. -/
theorem rotN_lt (direction : Direction) : ∀ n x, x < 2 ^ 44 → rotN direction n x < 2 ^ 44 := by
  intro n
  induction n with
  | zero => intro x hx; exact hx
  | succ n ih => intro x hx; exact ih _ (rot_lt direction x hx)

/-- The shifter rotation iterates like the arithmetic one below the width. -/
theorem regShiftN_eq_rotN (direction : Direction) :
    ∀ n x, x < 2 ^ 44 → regShiftN direction n x = rotN direction n x := by
  intro n
  induction n with
  | zero => intro x hx; rfl
  | succ n ih =>
    intro x hx
    show regShiftN direction n (regShift direction x) = rotN direction n (rot direction x)
    rw [regShift_eq_rot direction x hx]
    exact ih _ (rot_lt direction x hx)

/-- Peeling an iterated rotation from the outside. -/
theorem rotN_succ_outer (direction : Direction) :
    ∀ n x, rotN direction (n + 1) x = rot direction (rotN direction n x) := by
  intro n
  induction n with
  | zero => intro x; rfl
  | succ n ih =>
    intro x
    show rotN direction (n + 1) (rot direction x) = _
    rw [ih (rot direction x)]
    rfl

/-- Eleven Right rotations of a 44-bit value are the identity. -/
theorem rotN_right_11 (x : Nat) (hx : x < 2 ^ 44) : rotN Direction.Right 11 x = x := by
  show rotR (rotR (rotR (rotR (rotR (rotR (rotR (rotR (rotR (rotR (rotR x)))))))))) = x
  simp only [rotR]
  omega

/-- A Right rotation undoes a Left rotation below the width. -/
theorem rotR_rotL (x : Nat) (hx : x < 2 ^ 44) : rotR (rotL x) = x := by
  obtain ⟨q, r, hqr, hq, hr⟩ : ∃ q r, x = 2 ^ 40 * q + r ∧ q < 16 ∧ r < 2 ^ 40 :=
    ⟨x / 2 ^ 40, x % 2 ^ 40, by omega, by omega, by omega⟩
  subst hqr
  have hL : rotL (2 ^ 40 * q + r) = r * 16 + q := by
    unfold rotL
    rw [Nat.mul_add_mod, Nat.mul_add_div (by norm_num), Nat.mod_eq_of_lt hr,
      Nat.div_eq_of_lt hr, Nat.add_zero, Nat.mod_eq_of_lt hq]
  rw [hL]
  unfold rotR
  rw [Nat.mul_comm r 16, Nat.mul_add_div (by norm_num : (0 : Nat) < 16) r q,
    Nat.mul_add_mod, Nat.div_eq_of_lt hq, Nat.add_zero, Nat.mod_eq_of_lt hq]
  ring

/-- Iterated Right rotations undo the same number of Left rotations. -/
theorem rotN_right_left (n : Nat) :
    ∀ x, x < 2 ^ 44 → rotN Direction.Right n (rotN Direction.Left n x) = x := by
  induction n with
  | zero => intro x hx; rfl
  | succ n ih =>
    intro x hx
    have hL : rotN Direction.Left (n + 1) x = rotN Direction.Left n (rotL x) := rfl
    rw [hL, rotN_succ_outer]
    rw [ih (rotL x) (rot_lt Direction.Left x hx)]
    exact rotR_rotL x hx

/-- Eleven Left rotations of a 44-bit value are also the identity. -/
theorem rotN_left_11 (x : Nat) (hx : x < 2 ^ 44) : rotN Direction.Left 11 x = x := by
  have hb : rotN Direction.Left 11 x < 2 ^ 44 := rotN_lt Direction.Left 11 x hx
  calc rotN Direction.Left 11 x
      = rotN Direction.Right 11 (rotN Direction.Left 11 x) := (rotN_right_11 _ hb).symm
    _ = x := rotN_right_left 11 x hx

/-- Eleven identity rotations of the shifter restore a 44-bit register. -/
theorem regShiftN_11 (direction : Direction) (x : Nat) (hx : x < 2 ^ 44) :
    regShiftN direction 11 x = x := by
  rw [regShiftN_eq_rotN direction 11 x hx]
  cases direction with
  | Right => exact rotN_right_11 x hx
  | Left => exact rotN_left_11 x hx

/-- The word-select of an all-zero mask has no bit set at any pass. -/
theorem maskBitAt_zero (direction : Direction) (p : Nat) :
    maskBitAt direction 0 p = false := by
  cases direction <;> simp [maskBitAt]

/-- With an all-zero word select, every spec-side pass is the identity
rotation: no micro-operation fires, carry and shift buffer are untouched. -/
theorem alu_spec_passes_zero (instrs : Nat → Instruction) (constants : Nat → Nat)
    (instruction mask : Nat) (direction : Direction) :
    ∀ n p t, alu_spec_passes instrs constants instruction mask direction 0 p n t =
      { a := regShiftN direction n t.a, b := regShiftN direction n t.b,
        c := regShiftN direction n t.c, carry := t.carry,
        prev_nibble := t.prev_nibble } := by
  intro n
  induction n with
  | zero => intro p t; rfl
  | succ n ih =>
    intro p t
    show alu_spec_passes instrs constants instruction mask direction 0 (p + 1) n
        (alu_spec_pass instrs constants instruction mask direction 0 p t) = _
    have hpass : alu_spec_pass instrs constants instruction mask direction 0 p t =
        { a := regShift direction t.a, b := regShift direction t.b,
          c := regShift direction t.c, carry := t.carry,
          prev_nibble := t.prev_nibble } := by
      unfold alu_spec_pass
      simp [maskBitAt_zero, regShift]
    rw [hpass, ih]
    rfl

/-- Spec-side pass with no word-select gating at all: the micro-operation is
applied at every digit position, the constant still only at pass 0 — the
claim's reading of an all-ones word select. -/
def alu_all_pass (instrs : Nat → Instruction) (constants : Nat → Nat)
    (instruction mask : Nat) (direction : Direction) (p : Nat) (s : SpecState) : SpecState :=
  let a0 := shifter_read_nibble 44 s.a direction
  let b0 := shifter_read_nibble 44 s.b direction
  let c0 := shifter_read_nibble 44 s.c direction
  let k := if p = 0 then constants mask else 0
  let body := applyOp (instrs instruction) a0 b0 c0 k s.prev_nibble s.carry
  { a := shift_with_nibble 44 s.a direction body.1
    b := shift_with_nibble 44 s.b direction body.2.1
    c := shift_with_nibble 44 s.c direction body.2.2.1
    carry := body.2.2.2.1
    prev_nibble := body.2.2.2.2 }

/-- `n` ungated passes starting at pass index `p`. -/
def alu_all_passes (instrs : Nat → Instruction) (constants : Nat → Nat)
    (instruction mask : Nat) (direction : Direction) : Nat → Nat → SpecState → SpecState
  | p, 0, s => s
  | p, n + 1, s =>
    alu_all_passes instrs constants instruction mask direction (p + 1) n
      (alu_all_pass instrs constants instruction mask direction p s)

/-- `ALU::run_cycle` with the micro-operation applied at all 11 digit
positions (the spec's reading of a full word-select mask). -/
def ALU.run_cycle_all (alu : ALU) (instruction mask : Nat) : ALU × Bool :=
  let direction :=
    if 0x17 ≤ instruction ∧ instruction ≤ 0x19 then Direction.Left else Direction.Right
  let s0 : SpecState :=
    { a := alu.a, b := alu.b, c := alu.c, carry := false, prev_nibble := 0 }
  let sf := alu_all_passes alu.instructions alu.constants instruction mask direction 0 11 s0
  ({ alu with a := sf.a, b := sf.b, c := sf.c }, sf.carry)

/-- Every pass of an all-ones word select is masked. -/
theorem maskBitAt_all_ones (direction : Direction) (p : Nat) (hp : p ≤ 10) :
    maskBitAt direction 2047 p = true := by
  have h2047 : (2047 : Nat) = 2 ^ 11 - 1 := by norm_num
  cases direction with
  | Right =>
    show (2047 : Nat).testBit p = true
    rw [h2047, Nat.testBit_two_pow_sub_one]
    simpa using by omega
  | Left =>
    show (2047 : Nat).testBit (10 - p) = true
    rw [h2047, Nat.testBit_two_pow_sub_one]
    simpa using by omega

/-- With an all-ones word select the gated spec passes become ungated. -/
theorem alu_spec_passes_all_ones (instrs : Nat → Instruction) (constants : Nat → Nat)
    (instruction mask : Nat) (direction : Direction) :
    ∀ n p t, p + n = 11 →
      alu_spec_passes instrs constants instruction mask direction 2047 p n t =
        alu_all_passes instrs constants instruction mask direction p n t := by
  intro n
  induction n with
  | zero => intro p t h; rfl
  | succ n ih =>
    intro p t h
    have hp : p ≤ 10 := by omega
    have hbit := maskBitAt_all_ones direction p hp
    have hfm : isFirstMasked direction 2047 p ↔ p = 0 := by
      constructor
      · intro hf
        by_contra hne
        have h0 := hf.2 0 (by omega)
        rw [maskBitAt_all_ones direction 0 (by omega)] at h0
        simp at h0
      · intro hp0
        subst hp0
        exact ⟨hbit, fun q hq => absurd hq (by omega)⟩
    have hpass : alu_spec_pass instrs constants instruction mask direction 2047 p t =
        alu_all_pass instrs constants instruction mask direction p t := by
      unfold alu_spec_pass alu_all_pass
      by_cases hp0 : p = 0
      · subst hp0
        simp [hbit, hfm]
      · simp [hbit, hfm, hp0]
    show alu_spec_passes instrs constants instruction mask direction 2047 (p + 1) n
        (alu_spec_pass instrs constants instruction mask direction 2047 p t) = _
    rw [hpass]
    exact ih (p + 1) _ (by omega)

/-- C6: with an all-zero word select, `ALU::run_cycle` leaves the three
registers (each within its 44-bit width) unchanged through the full 11-pass
rotation and returns carry false; with all 11 word-select bits set, it
coincides with the run that applies the selected micro-operation at every
one of the 11 digit positions. -/
theorem alu_word_select_boundary :
    (∀ (alu : ALU) (instruction mask : Nat),
      alu.a < 2 ^ 44 → alu.b < 2 ^ 44 → alu.c < 2 ^ 44 →
      ALU.run_cycle alu 0 instruction mask = (alu, false)) ∧
    (∀ (alu : ALU) (instruction mask : Nat),
      ALU.run_cycle alu 2047 instruction mask = ALU.run_cycle_all alu instruction mask) := by
  constructor
  · intro alu instruction mask ha hb hc
    rw [run_cycle_eq_spec alu 0 instruction mask (by norm_num)]
    show (_, _) = (alu, false)
    rw [alu_spec_passes_zero]
    simp only
    rw [regShiftN_11 _ _ ha, regShiftN_11 _ _ hb, regShiftN_11 _ _ hc]
  · intro alu instruction mask
    rw [run_cycle_eq_spec alu 2047 instruction mask (by norm_num)]
    unfold ALU.run_cycle_spec ALU.run_cycle_all
    have key : ∀ (d : Direction) (t : SpecState),
        alu_spec_passes alu.instructions alu.constants instruction mask d 2047 0 11 t =
          alu_all_passes alu.instructions alu.constants instruction mask d 0 11 t :=
      fun d t => alu_spec_passes_all_ones alu.instructions alu.constants instruction mask
        d 11 0 t (by omega)
    simp only [key]

/-- A concrete ALU: every opcode decodes to `A = Add None, K` in hex mode,
every constant-table entry is 5, registers clear. -/
def sampleALU : ALU :=
  { a := 0, b := 0, c := 0,
    instructions := fun _ =>
      { operation := Operation.Add, arg1 := Arg.None, arg2 := Arg.K,
        dest := Arg.A, hex := true },
    constants := fun _ => 5 }

/-- Witness for C6: both boundary-mask behaviours at concrete inputs. -/
theorem alu_word_select_boundary_witness :
    ALU.run_cycle { sampleALU with a := 0x123, b := 0x456, c := 0x789 } 0 3 1 =
      ({ sampleALU with a := 0x123, b := 0x456, c := 0x789 }, false) ∧
    ALU.run_cycle sampleALU 2047 0 0 = ALU.run_cycle_all sampleALU 0 0 :=
  ⟨alu_word_select_boundary.1 _ 3 1 (by norm_num) (by norm_num) (by norm_num),
    alu_word_select_boundary.2 sampleALU 0 0⟩

/-- Spec-side pass gated by the word-select bit but with the constant
injected only at digit pass 0 — the claim C5 exactly as stated ("only on the
first digit pass of the instruction"). -/
def alu_first_pass_only (instrs : Nat → Instruction) (constants : Nat → Nat)
    (instruction mask : Nat) (direction : Direction) (w p : Nat) (s : SpecState) : SpecState :=
  let a0 := shifter_read_nibble 44 s.a direction
  let b0 := shifter_read_nibble 44 s.b direction
  let c0 := shifter_read_nibble 44 s.c direction
  let body : Nat × Nat × Nat × Bool × Nat :=
    if maskBitAt direction w p then
      let k := if p = 0 then constants mask else 0
      applyOp (instrs instruction) a0 b0 c0 k s.prev_nibble s.carry
    else
      (a0, b0, c0, s.carry, s.prev_nibble)
  { a := shift_with_nibble 44 s.a direction body.1
    b := shift_with_nibble 44 s.b direction body.2.1
    c := shift_with_nibble 44 s.c direction body.2.2.1
    carry := body.2.2.2.1
    prev_nibble := body.2.2.2.2 }

/-- `n` claim-as-stated passes starting at pass index `p`. -/
def alu_first_pass_only_passes (instrs : Nat → Instruction) (constants : Nat → Nat)
    (instruction mask : Nat) (direction : Direction) (w : Nat) :
    Nat → Nat → SpecState → SpecState
  | p, 0, s => s
  | p, n + 1, s =>
    alu_first_pass_only_passes instrs constants instruction mask direction w (p + 1) n
      (alu_first_pass_only instrs constants instruction mask direction w p s)

/-- `ALU::run_cycle` as claim C5 states it: the constant operand is supplied
only on digit pass 0, later passes receive zero. -/
def ALU.run_cycle_first_pass (alu : ALU) (word_select instruction mask : Nat) : ALU × Bool :=
  let direction :=
    if 0x17 ≤ instruction ∧ instruction ≤ 0x19 then Direction.Left else Direction.Right
  let s0 : SpecState :=
    { a := alu.a, b := alu.b, c := alu.c, carry := false, prev_nibble := 0 }
  let sf := alu_first_pass_only_passes alu.instructions alu.constants instruction mask
    direction word_select 0 11 s0
  ({ alu with a := sf.a, b := sf.b, c := sf.c }, sf.carry)

/-- C5 counterexample: with word select `0b00000000010` (bit 0 clear, bit 1
set) and an `A = Add None, K` micro-instruction with constant 5, the code
injects the constant at digit pass 1 — the first *masked* pass — leaving
`A = 0x50`, whereas under the claim's wording (constant only on the first
digit pass, zero afterwards) `A` would remain 0. -/
theorem alu_constant_not_first_pass :
    (ALU.run_cycle sampleALU 2 0 0).1.a = 0x50 ∧
    (ALU.run_cycle_first_pass sampleALU 2 0 0).1.a = 0 ∧
    (ALU.run_cycle sampleALU 2 0 0).1.a ≠ (ALU.run_cycle_first_pass sampleALU 2 0 0).1.a := by
  refine ⟨by decide, by decide, by decide⟩

/-- C5 (amended): in `ALU::run_cycle` the injected constant operand K is
supplied exactly at the first digit pass whose word-select bit is set; every
other pass (masked or not) receives zero in its place. -/
theorem alu_constant_on_first_masked_pass (alu : ALU) (word_select instruction mask : Nat)
    (hw : word_select < 2 ^ 11) :
    ALU.run_cycle alu word_select instruction mask =
      ALU.run_cycle_spec alu word_select instruction mask :=
  run_cycle_eq_spec alu word_select instruction mask hw

/-- Witness for the amended C5 at the concrete counterexample input. -/
theorem alu_constant_on_first_masked_pass_witness :
    ALU.run_cycle sampleALU 2 0 0 = ALU.run_cycle_spec sampleALU 2 0 0 :=
  alu_constant_on_first_masked_pass sampleALU 2 0 0 (by norm_num)

/-- `src/tms0800/control.rs` `ControlUnit`: 9-bit program counter, the two
11-bit flag shifters, the 10-bit `d` scan shifter and the live keyboard
input.  `pc` arithmetic wraps modulo `2^9`. -/
structure ControlUnit where
  pc : Nat
  fa : Nat
  fb : Nat
  d : Nat
  current_keypress : Nat

/-- The mutable state of the class-2 flag loop in
`ControlUnit::run_cycle`: program counter, the two flag shifters, the
walking word-select copy and the carry. -/
structure CUState where
  pc : Nat
  fa : Nat
  fb : Nat
  ws : Nat
  carry : Bool

/-- One iteration `i` of the class-2 flag loop of
`ControlUnit::run_cycle`: read the current flag bits, consume one
word-select bit and, when it is set, execute the control instruction
(`dpar` is the parallel value of the `d` shifter, `d` its serial bit read
before the loop, both fixed across the loop). -/
def cu_pass (instruction addr : Nat) (d : Bool) (dpar keypress : Nat) (i : Nat)
    (st : CUState) : CUState :=
  let fa0 := shifter16_read_bit 11 st.fa Direction.Right
  let fb0 := shifter16_read_bit 11 st.fb Direction.Right
  let rs := read_and_shift_bit 11 st.ws Direction.Right false
  let eff : Nat × Bool × Bool × Bool :=
    if rs.1 then
      if instruction ≤ 15 then
        (if dpar = keypress then addr else st.pc, fa0, fb0, st.carry)
      else if instruction = 17 ∨ instruction = 18 then
        (if keypress = 0 then (st.pc + 511) % 512 else addr, fa0, fb0, st.carry)
      else if instruction = 19 then (st.pc, fa0, true, st.carry)
      else if instruction = 20 then (st.pc, true, fb0, st.carry)
      else if instruction = 21 then
        (if ¬ d ∧ i = 0 then (st.pc + 511) % 512 else st.pc, fa0, fb0, st.carry)
      else if instruction = 22 then
        (if ¬ d ∧ i = 0 then (st.pc + 511) % 512 else st.pc, fa0, fb0,
          decide (keypress ≠ 0))
      else if instruction = 23 then (st.pc, fa0, false, st.carry)
      else if instruction = 24 then (st.pc, false, fb0, st.carry)
      else if instruction = 25 then (st.pc, fa0, fb0, if fb0 then true else st.carry)
      else if instruction = 26 then (st.pc, fa0, fb0, if fa0 then true else st.carry)
      else if instruction = 27 then (st.pc, fa0, !fb0, st.carry)
      else if instruction = 28 then (st.pc, !fa0, fb0, st.carry)
      else if instruction = 29 then
        (st.pc, fa0, fb0, if fb0 != fa0 then true else st.carry)
      else if instruction = 31 then (st.pc, fb0, fa0, st.carry)
      else (st.pc, fa0, fb0, st.carry)
    else
      (st.pc, fa0, fb0, st.carry)
  { pc := eff.1
    fa := shifter16_shift_with_bit 11 st.fa Direction.Right eff.2.1
    fb := shifter16_shift_with_bit 11 st.fb Direction.Right eff.2.2.1
    ws := rs.2
    carry := eff.2.2.2 }

/-- `n` iterations of the class-2 flag loop, starting at index `i`. -/
def cu_passes (instruction addr : Nat) (d : Bool) (dpar keypress : Nat) :
    Nat → Nat → CUState → CUState
  | i, 0, st => st
  | i, n + 1, st =>
    cu_passes instruction addr d dpar keypress (i + 1) n
      (cu_pass instruction addr d dpar keypress i st)

/-- `src/tms0800/control.rs` `ControlUnit::run_cycle`: advance the program
counter, decode the 2-bit class (0 jump-if-no-carry, 1 jump-if-carry, 2
flag/control instruction, 3 register instruction hold check), rotate the `d`
shifter one position, and return the new carry. -/
def ControlUnit.run_cycle (cu : ControlUnit) (word_select opcode cls instruction : Nat)
    (carry : Bool) : ControlUnit × Bool :=
  let pc1 := (cu.pc + 1) % 512
  let addr := opcode &&& 0b111111111
  let d := shifter16_read_bit 10 cu.d Direction.Right
  let state : Nat × Nat × Nat × Bool :=
    if cls = 0 then
      (if ¬ carry then addr else pc1, cu.fa, cu.fb, if ¬ carry then carry else false)
    else if cls = 1 then
      (if carry then addr else pc1, cu.fa, cu.fb, if carry then false else carry)
    else if cls = 2 then
      let st := cu_passes instruction addr d (cu.d) cu.current_keypress 0 11
        { pc := pc1, fa := cu.fa, fb := cu.fb, ws := word_select, carry := carry }
      (st.pc, st.fa, st.fb, st.carry)
    else
      (if instruction = 0x1A ∧ (cu.d ||| 0b1) ≠ cu.current_keypress
        then (pc1 + 511) % 512 else pc1, cu.fa, cu.fb, carry)
  ({ pc := state.1, fa := state.2.1, fb := state.2.2.1,
     d := shifter16_shift_with_bit 10 cu.d Direction.Right d,
     current_keypress := cu.current_keypress }, state.2.2.2)

/-- `src/tms0800/mod.rs` `TMS0800`: ROM (320 11-bit words), ALU, control
unit, the mask-to-word-select table and the sticky carry latch. -/
structure TMS0800 where
  rom : Nat → Nat
  alu : ALU
  control : ControlUnit
  word_selects : Nat → Nat
  carry : Bool

/-- `src/tms0800/mod.rs` `TMS0800::run_cycle`: fetch the opcode, split off
class/instruction/mask, run the ALU for class-3 (register) instructions —
its carry output only ever *sets* the latch — then run the control unit for
every class, which produces the new latch value. -/
def TMS0800.run_cycle (t : TMS0800) : TMS0800 :=
  let opcode := t.rom t.control.pc
  let cls := opcode >>> 9
  let mask := opcode &&& 0xF
  let instruction := (opcode >>> 4) &&& 0b11111
  let word_select := t.word_selects mask
  let step1 : ALU × Bool :=
    if cls = 3 then
      let r := t.alu.run_cycle word_select instruction mask
      (r.1, if r.2 then true else t.carry)
    else
      (t.alu, t.carry)
  let step2 := step1.1
  let cr := ControlUnit.run_cycle t.control word_select opcode cls instruction step1.2
  { t with alu := step2, control := cr.1, carry := cr.2 }

/-- Any class-2 control instruction other than SCAN (instruction 22) can
only set the carry, never clear it, across one loop iteration. -/
theorem cu_pass_carry_sticky (instruction addr : Nat) (d : Bool) (dpar keypress i : Nat)
    (st : CUState) (hne : instruction ≠ 22) (hc : st.carry = true) :
    (cu_pass instruction addr d dpar keypress i st).carry = true := by
  rcases Nat.lt_or_ge instruction 32 with h | h
  · interval_cases instruction <;> simp_all [cu_pass] <;> split_ifs <;> simp_all
  · simp [cu_pass, hc, show ¬ instruction ≤ 15 by omega,
      show ¬ (instruction = 17 ∨ instruction = 18) by omega,
      show instruction ≠ 19 by omega, show instruction ≠ 20 by omega,
      show instruction ≠ 21 by omega, show instruction ≠ 22 by omega,
      show instruction ≠ 23 by omega, show instruction ≠ 24 by omega,
      show instruction ≠ 25 by omega, show instruction ≠ 26 by omega,
      show instruction ≠ 27 by omega, show instruction ≠ 28 by omega,
      show instruction ≠ 29 by omega, show instruction ≠ 31 by omega]

/-- Carry stickiness extends over any number of non-SCAN loop iterations. -/
theorem cu_passes_carry_sticky (instruction addr : Nat) (d : Bool) (dpar keypress : Nat)
    (hne : instruction ≠ 22) :
    ∀ n i st, st.carry = true →
      (cu_passes instruction addr d dpar keypress i n st).carry = true := by
  intro n
  induction n with
  | zero => intro i st hc; exact hc
  | succ n ih =>
    intro i st hc
    exact ih (i + 1) _ (cu_pass_carry_sticky instruction addr d dpar keypress i st hne hc)

/-- C2: the sticky carry latch of the TMS0800 never falls from true to false
across `run_cycle` except when the executed instruction is a
carry-consuming conditional jump (class 0, jump-if-no-carry, or class 1,
jump-if-carry) or the explicit carry-writing SCAN control operation
(class 2, instruction 22), the one instruction that reloads the carry from
the keyboard state. -/
theorem tms0800_sticky_carry (t : TMS0800) (hrom : t.rom t.control.pc < 2 ^ 11)
    (hcarry : t.carry = true) (hdrop : (TMS0800.run_cycle t).carry = false) :
    t.rom t.control.pc >>> 9 = 0 ∨ t.rom t.control.pc >>> 9 = 1 ∨
      (t.rom t.control.pc >>> 9 = 2 ∧ (t.rom t.control.pc >>> 4) &&& 0b11111 = 22) := by
  set opcode := t.rom t.control.pc with hop
  have hcls : opcode >>> 9 < 4 := by
    rw [Nat.shiftRight_eq_div_pow]
    omega
  by_cases h0 : opcode >>> 9 = 0
  · exact Or.inl h0
  by_cases h1 : opcode >>> 9 = 1
  · exact Or.inr (Or.inl h1)
  by_cases h2 : opcode >>> 9 = 2
  · refine Or.inr (Or.inr ⟨h2, ?_⟩)
    by_contra hne
    have : (TMS0800.run_cycle t).carry = true := by
      unfold TMS0800.run_cycle ControlUnit.run_cycle
      simp only [← hop, h2, hcarry]
      norm_num
      exact cu_passes_carry_sticky _ _ _ _ _ hne 11 0 _ rfl
    rw [this] at hdrop
    simp at hdrop
  · exfalso
    have h3 : opcode >>> 9 = 3 := by omega
    have : (TMS0800.run_cycle t).carry = true := by
      unfold TMS0800.run_cycle ControlUnit.run_cycle
      simp only [← hop, h3, hcarry]
      norm_num
    rw [this] at hdrop
    simp at hdrop

/-- Witness for C2: a TMS0800 whose next opcode is class 0 (jump-if-no-carry)
with the latch set does drop the carry, and the theorem names class 0. -/
theorem tms0800_sticky_carry_witness :
    let t : TMS0800 :=
      { rom := fun _ => 0, alu := sampleALU,
        control := { pc := 0, fa := 0, fb := 0, d := 0b1000000000,
                     current_keypress := 0 },
        word_selects := fun _ => 0, carry := true }
    t.rom t.control.pc >>> 9 = 0 ∨ t.rom t.control.pc >>> 9 = 1 ∨
      (t.rom t.control.pc >>> 9 = 2 ∧ (t.rom t.control.pc >>> 4) &&& 0b11111 = 22) :=
  tms0800_sticky_carry _ (by norm_num) rfl (by decide)

/-- `src/mcs4/mod.rs` `Byte`: an 8-bit opcode split into the high (OPR) and
low (OPA) nibbles, as the `bitbybit` bitfield stores it. -/
structure Byte where
  high : Nat
  low : Nat
deriving DecidableEq, Repr

/-- `src/mcs4/mod.rs` `Address` raw getters/setters on the 12-bit raw value:
bits 8–11 chip index, 4–7 high, 0–3 low. -/
def Address.low (a : Nat) : Nat := a &&& 0xF

/-- Bits 4–7 of a 12-bit address. -/
def Address.high (a : Nat) : Nat := (a >>> 4) &&& 0xF

/-- Replace bits 0–3 of a 12-bit address. -/
def Address.with_low (a l : Nat) : Nat := (a &&& 0xFF0) ||| (l &&& 0xF)

/-- Replace bits 4–7 of a 12-bit address. -/
def Address.with_high (a h : Nat) : Nat := (a &&& 0xF0F) ||| ((h &&& 0xF) <<< 4)

/-- `Address::builder().with_chip_index(c).with_high(h).with_low(l)`. -/
def Address.build (chip high low : Nat) : Nat :=
  ((chip &&& 0xF) <<< 8) ||| ((high &&& 0xF) <<< 4) ||| (low &&& 0xF)

/-- `src/mcs4/mod.rs` `ControlLines` raw value; bit 4 is the ROM line, bits
0–3 the RAM bank lines. -/
def ControlLines.with_bit (c idx : Nat) (b : Bool) : Nat :=
  if b then c ||| (1 <<< idx) else c &&& ((2 ^ 8 - 1) ^^^ (1 <<< idx))

/-- `src/mcs4/cpu4004.rs` `ContinueFrom`: which phase of a multi-cycle
instruction is pending. -/
inductive ContinueFrom
  | StartOver
  | JumpConditional
  | CallFar
  | JumpFar
  | SetReg
  | SetIndirectReg
deriving DecidableEq, Repr

/-- `src/mcs4/cpu4004.rs` `CPU`: the 4004 engine state.  `regs` is the
packed `Indexer64` word; `stack` is the 4-entry circular return-address
buffer (modelled as a function, indexed only below 4); `push_count` is the
undocumented 8-bit push counter (wraps modulo 256). -/
structure CPU4004 where
  continue_from : ContinueFrom
  previous_modifier : Nat
  control_output : Nat
  pc : Nat
  stack : Nat → Nat
  effective_address : Nat
  push_count : Nat
  opcode : Byte
  carry : Bool
  test : Bool
  acc : Nat
  regs : Nat

/-- `src/mcs4/mod.rs` `ExecuteOut`: the per-cycle side-channel result. -/
inductive ExecuteOut
  | Nothing
  | SRC (data : Byte)
  | Write (data : Byte)
deriving DecidableEq, Repr

/-- `CPU::set_acc_carry`: carry is the 5th bit, accumulator the low nibble. -/
def set_acc_carry (cpu : CPU4004) (val : Nat) : CPU4004 :=
  { cpu with carry := decide (0xF < val), acc := val &&& 0xF }

/-- `CPU::set_opcode` (M1/M2 clocks): latch the opcode; the returned control
lines are `control_output` only for `0xE_` opcodes decoded from `StartOver`. -/
def CPU4004.set_opcode (cpu : CPU4004) (opcode : Byte) : CPU4004 × Nat :=
  ({ cpu with opcode := opcode },
    if cpu.continue_from = ContinueFrom.StartOver ∧ opcode.high = 0xE
    then cpu.control_output else 0)

/-- `src/mcs4/cpu4004.rs` `CPU::run_cycle` (X1/X2 clocks): one execution
phase.  `none` models the `unreachable!` panic on opcode `0xFF` and an
out-of-range stack index.  The program counter wraps at `0xFFF`; the i8 cast
in BBL's `(effective_address - 1) & 0x3` is modelled as `(ea + 3) % 4`,
which agrees with it for every in-range (`< 4`) index. -/
def CPU4004.run_cycle (cpu : CPU4004) (data_in : Nat) : Option (CPU4004 × ExecuteOut) :=
  let cpu :=
    if cpu.opcode.high = 3 ∧ cpu.continue_from = ContinueFrom.StartOver then cpu
    else { cpu with pc := (cpu.pc + 1) &&& 0xFFF }
  match cpu.continue_from with
  | ContinueFrom.StartOver =>
    let modifier := cpu.opcode.low
    let cpu := { cpu with previous_modifier := cpu.opcode.low }
    if cpu.opcode.high = 0x1 then
      some ({ cpu with continue_from := ContinueFrom.JumpConditional }, ExecuteOut.Nothing)
    else if cpu.opcode.high = 0x2 then
      if modifier % 2 = 0 then
        some ({ cpu with continue_from := ContinueFrom.SetReg }, ExecuteOut.Nothing)
      else
        some (cpu, ExecuteOut.SRC
          { high := Indexer64.read_nibble cpu.regs (modifier &&& 0b1110),
            low := Indexer64.read_nibble cpu.regs modifier })
    else if cpu.opcode.high = 0x3 then
      if modifier % 2 = 0 then
        some ({ cpu with continue_from := ContinueFrom.SetIndirectReg }, ExecuteOut.Nothing)
      else
        let pc := Address.with_low
          (Address.with_high cpu.pc (Indexer64.read_nibble cpu.regs (modifier &&& 0b1110)))
          (Indexer64.read_nibble cpu.regs modifier)
        some ({ cpu with pc := pc }, ExecuteOut.Nothing)
    else if cpu.opcode.high = 0x4 then
      some ({ cpu with continue_from := ContinueFrom.JumpFar }, ExecuteOut.Nothing)
    else if cpu.opcode.high = 0x5 then
      some ({ cpu with continue_from := ContinueFrom.CallFar }, ExecuteOut.Nothing)
    else if cpu.opcode.high = 0x6 then
      let val := Indexer64.read_nibble cpu.regs modifier
      some ({ cpu with regs := Indexer64.write_nibble cpu.regs modifier ((val + 1) &&& 0xF) },
        ExecuteOut.Nothing)
    else if cpu.opcode.high = 0x7 then
      let val := Indexer64.read_nibble cpu.regs modifier
      let cpu :=
        if val = 0xF then
          { cpu with regs := Indexer64.write_nibble cpu.regs modifier 0,
                     previous_modifier := 0b0000 }
        else
          { cpu with regs := Indexer64.write_nibble cpu.regs modifier (val + 1),
                     previous_modifier := 0b1000 }
      some ({ cpu with continue_from := ContinueFrom.JumpConditional }, ExecuteOut.Nothing)
    else if cpu.opcode.high = 0x8 then
      some (set_acc_carry cpu
        (cpu.acc + Indexer64.read_nibble cpu.regs modifier + (if cpu.carry then 1 else 0)),
        ExecuteOut.Nothing)
    else if cpu.opcode.high = 0x9 then
      some (set_acc_carry cpu
        (cpu.acc + (Indexer64.read_nibble cpu.regs modifier ^^^ 0xF) +
          (if cpu.carry then 0 else 1)),
        ExecuteOut.Nothing)
    else if cpu.opcode.high = 0xA then
      some ({ cpu with acc := Indexer64.read_nibble cpu.regs modifier }, ExecuteOut.Nothing)
    else if cpu.opcode.high = 0xB then
      let nibble := Indexer64.read_nibble cpu.regs modifier
      some ({ cpu with regs := Indexer64.write_nibble cpu.regs modifier cpu.acc,
                       acc := nibble }, ExecuteOut.Nothing)
    else if cpu.opcode.high = 0xC then
      let cpu := { cpu with acc := cpu.opcode.low }
      if 0 < cpu.push_count then
        let ea := (cpu.effective_address + 3) % 4
        if ea < 4 then
          some ({ cpu with push_count := cpu.push_count - 1, effective_address := ea,
                           pc := cpu.stack ea }, ExecuteOut.Nothing)
        else none
      else
        some (cpu, ExecuteOut.Nothing)
    else if cpu.opcode.high = 0xD then
      some ({ cpu with acc := cpu.opcode.low }, ExecuteOut.Nothing)
    else if cpu.opcode.high = 0xE then
      if modifier = 0x8 then
        some (set_acc_carry cpu
          (cpu.acc + (data_in ^^^ 0xF) + (if cpu.carry then 0 else 1)), ExecuteOut.Nothing)
      else if modifier = 0x9 ∨ modifier = 0xA ∨ (0xC ≤ modifier ∧ modifier ≤ 0xF) then
        some ({ cpu with acc := data_in }, ExecuteOut.Nothing)
      else if modifier = 0xB then
        some (set_acc_carry cpu
          (cpu.acc + data_in + (if cpu.carry then 1 else 0)), ExecuteOut.Nothing)
      else
        some (cpu, ExecuteOut.Write { high := cpu.opcode.low, low := cpu.acc })
    else if cpu.opcode.high = 0xF then
      if modifier = 0x0 then
        some ({ cpu with acc := 0, carry := false }, ExecuteOut.Nothing)
      else if modifier = 0x1 then
        some ({ cpu with carry := false }, ExecuteOut.Nothing)
      else if modifier = 0x2 then
        some (set_acc_carry cpu (cpu.acc + 1), ExecuteOut.Nothing)
      else if modifier = 0x3 then
        some ({ cpu with carry := !cpu.carry }, ExecuteOut.Nothing)
      else if modifier = 0x4 then
        some ({ cpu with acc := cpu.acc ^^^ 0xF }, ExecuteOut.Nothing)
      else if modifier = 0x5 then
        let new_carry := decide (cpu.acc &&& 8 = 8)
        let acc := (cpu.acc <<< 1) &&& 0xF
        some ({ cpu with acc := if cpu.carry then acc ||| 1 else acc,
                         carry := new_carry }, ExecuteOut.Nothing)
      else if modifier = 0x6 then
        let new_carry := decide (cpu.acc &&& 1 = 1)
        let acc := cpu.acc >>> 1
        some ({ cpu with acc := if cpu.carry then acc ||| 8 else acc,
                         carry := new_carry }, ExecuteOut.Nothing)
      else if modifier = 0x7 then
        some ({ cpu with acc := if cpu.carry then 1 else 0, carry := false },
          ExecuteOut.Nothing)
      else if modifier = 0x8 then
        if cpu.acc = 0 then
          some ({ cpu with acc := 0xF, carry := false }, ExecuteOut.Nothing)
        else
          some ({ cpu with acc := cpu.acc - 1, carry := true }, ExecuteOut.Nothing)
      else if modifier = 0x9 then
        some ({ cpu with acc := if cpu.carry then 10 else 9, carry := false },
          ExecuteOut.Nothing)
      else if modifier = 0xA then
        some ({ cpu with carry := true }, ExecuteOut.Nothing)
      else if modifier = 0xB then
        if 9 < cpu.acc ∨ cpu.carry then
          let val := cpu.acc + 6
          some ({ cpu with acc := val &&& 0xF,
                           carry := if 0xF < val then true else cpu.carry },
            ExecuteOut.Nothing)
        else
          some (cpu, ExecuteOut.Nothing)
      else if modifier = 0xC then
        some ({ cpu with acc :=
          if cpu.acc = 0b0000 then 0
          else if cpu.acc = 0b0001 then 1
          else if cpu.acc = 0b0010 then 2
          else if cpu.acc = 0b0100 then 3
          else if cpu.acc = 0b1000 then 4
          else 0xF }, ExecuteOut.Nothing)
      else if modifier = 0xD then
        let base := ControlLines.with_bit 0 4 true
        let r1 := ControlLines.with_bit base 1 (cpu.acc &&& 0b1 = 0b1)
        let r2 := ControlLines.with_bit r1 2 (cpu.acc &&& 0b10 = 0b10)
        let r3 := ControlLines.with_bit r2 3 (cpu.acc &&& 0b100 = 0b100)
        let out := if cpu.acc = 0 then ControlLines.with_bit base 0 true else r3
        some ({ cpu with control_output := out }, ExecuteOut.Nothing)
      else if modifier = 0xE then
        some (cpu, ExecuteOut.Nothing)
      else
        none
    else
      some (cpu, ExecuteOut.Nothing)
  | ContinueFrom.JumpConditional =>
    let modifier := cpu.previous_modifier
    let c1 := modifier &&& 0x8 = 0x8
    let c2 := modifier &&& 0x4 = 0x4
    let c3 := modifier &&& 0x2 = 0x2
    let c4 := modifier &&& 0x1 = 0x1
    let partial_cond := (c4 ∧ cpu.test) ∨ (c3 ∧ cpu.carry) ∨ (c2 ∧ cpu.acc = 0)
    let jump_pc := Address.with_low (Address.with_high cpu.pc cpu.opcode.high) cpu.opcode.low
    let cpu :=
      if (¬ c1 ∧ partial_cond) ∨ (c1 ∧ ¬ partial_cond) then { cpu with pc := jump_pc }
      else cpu
    some ({ cpu with continue_from := ContinueFrom.StartOver }, ExecuteOut.Nothing)
  | ContinueFrom.CallFar =>
    if cpu.effective_address < 4 then
      some ({ cpu with
        stack := fun j => if j = cpu.effective_address then cpu.pc else cpu.stack j,
        effective_address := (cpu.effective_address + 1) &&& 0x3,
        push_count := (cpu.push_count + 1) % 256,
        pc := Address.build cpu.previous_modifier cpu.opcode.high cpu.opcode.low,
        continue_from := ContinueFrom.StartOver }, ExecuteOut.Nothing)
    else none
  | ContinueFrom.JumpFar =>
    some ({ cpu with
      pc := Address.build cpu.previous_modifier cpu.opcode.high cpu.opcode.low,
      continue_from := ContinueFrom.StartOver }, ExecuteOut.Nothing)
  | ContinueFrom.SetReg | ContinueFrom.SetIndirectReg =>
    let index := cpu.previous_modifier
    let regs := Indexer64.write_nibble cpu.regs index cpu.opcode.high
    let regs := Indexer64.write_nibble regs (index ||| 1) cpu.opcode.low
    some ({ cpu with regs := regs, continue_from := ContinueFrom.StartOver },
      ExecuteOut.Nothing)

/-- Feed a sequence of (opcode, data-in) pairs to the engine, one `run_cycle`
per element, threading the state and dropping the side-channel outputs. -/
def run_steps (cpu : CPU4004) : List (Byte × Nat) → Option CPU4004
  | [] => some cpu
  | (op, din) :: rest =>
    match CPU4004.run_cycle { cpu with opcode := op } din with
    | none => none
    | some (c, _) => run_steps c rest

/-- A concrete 4004 state in `StartOver`, ready to decode. -/
def c3CPU : CPU4004 :=
  { continue_from := ContinueFrom.StartOver, previous_modifier := 0, control_output := 0,
    pc := 0x700, stack := fun _ => 0, effective_address := 0, push_count := 0,
    opcode := { high := 0, low := 0 }, carry := false, test := false, acc := 0, regs := 0 }

/-- The two-cycle opcode streams of five JMS calls to `0x100`, …, `0x500`
(return addresses `0x702, 0x102, 0x202, 0x302, 0x402`, all distinct). -/
def c3Calls : List (Byte × Nat) :=
  [({ high := 5, low := 1 }, 0), ({ high := 0, low := 0 }, 0),
   ({ high := 5, low := 2 }, 0), ({ high := 0, low := 0 }, 0),
   ({ high := 5, low := 3 }, 0), ({ high := 0, low := 0 }, 0),
   ({ high := 5, low := 4 }, 0), ({ high := 0, low := 0 }, 0),
   ({ high := 5, low := 5 }, 0), ({ high := 0, low := 0 }, 0)]

/-- One BBL (return) cycle. -/
def c3BBL : Byte × Nat := ({ high := 0xC, low := 0 }, 0)

/-- C3 counterexample: from the starting state with the 8-bit push counter at
251, the five calls wrap the counter to 0, so the following BBL is a no-op:
it leaves the program counter at `0x501` (the address after the BBL inside
the fifth subroutine) instead of restoring the fifth call's return address
`0x402`.  The claim's "from any starting state" therefore fails. -/
theorem cpu4004_stack_claim_fails_at_push_count_251 :
    (run_steps { c3CPU with push_count := 251 } c3Calls).map CPU4004.push_count = some 0 ∧
    (run_steps { c3CPU with push_count := 251 } (c3Calls ++ [c3BBL])).map CPU4004.pc =
      some 0x501 ∧
    (0x501 : Nat) ≠ 0x402 := by
  refine ⟨by decide, by decide, by decide⟩

/-- Stepping over the first byte of a JMS: the engine advances the program
counter, stashes the chip-index modifier and moves to the `CallFar` phase. -/
theorem run_steps_jms (cpu : CPU4004) (h : cpu.continue_from = ContinueFrom.StartOver)
    (m d : Nat) (rest : List (Byte × Nat)) :
    run_steps cpu (({ high := 5, low := m }, d) :: rest) =
      run_steps { cpu with opcode := { high := 5, low := m },
                           pc := (cpu.pc + 1) &&& 0xFFF,
                           previous_modifier := m,
                           continue_from := ContinueFrom.CallFar } rest := by
  simp [run_steps, CPU4004.run_cycle, h]

/-- Stepping over the second byte of a JMS (the `CallFar` phase): the
incremented program counter is pushed into the circular stack slot, the
stack index advances modulo 4, the push counter increments modulo 256, and
control jumps to the assembled 12-bit target. -/
theorem run_steps_call_second (cpu : CPU4004)
    (h : cpu.continue_from = ContinueFrom.CallFar) (hea : cpu.effective_address < 4)
    (hh ll d : Nat) (rest : List (Byte × Nat)) :
    run_steps cpu (({ high := hh, low := ll }, d) :: rest) =
      run_steps { cpu with opcode := { high := hh, low := ll },
                           pc := Address.build cpu.previous_modifier hh ll,
                           stack := fun j => if j = cpu.effective_address
                             then (cpu.pc + 1) &&& 0xFFF else cpu.stack j,
                           effective_address := (cpu.effective_address + 1) &&& 0x3,
                           push_count := (cpu.push_count + 1) % 256,
                           continue_from := ContinueFrom.StartOver } rest := by
  have hne : ¬ (hh = 3 ∧ ContinueFrom.CallFar = ContinueFrom.StartOver) := by
    intro hx
    cases hx.2
  simp [run_steps, CPU4004.run_cycle, h, hea]

/-- Stepping over a BBL with a pending push: the accumulator is loaded, the
push counter decrements, the stack index steps back modulo 4, and the
program counter is restored from the stack. -/
theorem run_steps_bbl_pop (cpu : CPU4004)
    (h : cpu.continue_from = ContinueFrom.StartOver) (hp : 0 < cpu.push_count)
    (n d : Nat) (rest : List (Byte × Nat)) :
    run_steps cpu (({ high := 0xC, low := n }, d) :: rest) =
      run_steps { cpu with opcode := { high := 0xC, low := n },
                           previous_modifier := n,
                           acc := n,
                           push_count := cpu.push_count - 1,
                           effective_address := (cpu.effective_address + 3) % 4,
                           pc := cpu.stack ((cpu.effective_address + 3) % 4) } rest := by
  have h4 : (cpu.effective_address + 3) % 4 < 4 := by omega
  simp [run_steps, CPU4004.run_cycle, h, hp, h4]

/-- C3 (amended): from any starting state in `StartOver` whose stack index is
in range (`effective_address < 4`, as every stack operation maintains) and
whose 8-bit push counter is at most 250 (so the five pushes do not wrap it),
executing 5 JMS calls with distinct return addresses `r1 … r5` followed by
1–4 BBL returns restores, in LIFO order, exactly `r5, r4, r3, r2` — the
return addresses of the last four calls — and never the first call's `r1`,
which the fifth call overwrote in the 4-deep circular stack. -/
theorem cpu4004_stack_wraparound (s : CPU4004)
    (hstart : s.continue_from = ContinueFrom.StartOver)
    (hea : s.effective_address < 4) (hpush : s.push_count ≤ 250)
    (m1 h1 l1 m2 h2 l2 m3 h3 l3 m4 h4 l4 m5 h5 l5 n1 n2 n3 n4 : Nat)
    (d1 d2 d3 d4 d5 d6 d7 d8 d9 d10 e1 e2 e3 e4 : Nat)
    (r1 r2 r3 r4 r5 : Nat)
    (hr1 : r1 = (((s.pc + 1) &&& 0xFFF) + 1) &&& 0xFFF)
    (hr2 : r2 = (((Address.build m1 h1 l1 + 1) &&& 0xFFF) + 1) &&& 0xFFF)
    (hr3 : r3 = (((Address.build m2 h2 l2 + 1) &&& 0xFFF) + 1) &&& 0xFFF)
    (hr4 : r4 = (((Address.build m3 h3 l3 + 1) &&& 0xFFF) + 1) &&& 0xFFF)
    (hr5 : r5 = (((Address.build m4 h4 l4 + 1) &&& 0xFFF) + 1) &&& 0xFFF)
    (hdist : r1 ≠ r2 ∧ r1 ≠ r3 ∧ r1 ≠ r4 ∧ r1 ≠ r5) :
    (run_steps s
      [({ high := 5, low := m1 }, d1), ({ high := h1, low := l1 }, d2),
       ({ high := 5, low := m2 }, d3), ({ high := h2, low := l2 }, d4),
       ({ high := 5, low := m3 }, d5), ({ high := h3, low := l3 }, d6),
       ({ high := 5, low := m4 }, d7), ({ high := h4, low := l4 }, d8),
       ({ high := 5, low := m5 }, d9), ({ high := h5, low := l5 }, d10),
       ({ high := 0xC, low := n1 }, e1)]).map CPU4004.pc = some r5 ∧
    (run_steps s
      [({ high := 5, low := m1 }, d1), ({ high := h1, low := l1 }, d2),
       ({ high := 5, low := m2 }, d3), ({ high := h2, low := l2 }, d4),
       ({ high := 5, low := m3 }, d5), ({ high := h3, low := l3 }, d6),
       ({ high := 5, low := m4 }, d7), ({ high := h4, low := l4 }, d8),
       ({ high := 5, low := m5 }, d9), ({ high := h5, low := l5 }, d10),
       ({ high := 0xC, low := n1 }, e1), ({ high := 0xC, low := n2 }, e2)]).map CPU4004.pc =
      some r4 ∧
    (run_steps s
      [({ high := 5, low := m1 }, d1), ({ high := h1, low := l1 }, d2),
       ({ high := 5, low := m2 }, d3), ({ high := h2, low := l2 }, d4),
       ({ high := 5, low := m3 }, d5), ({ high := h3, low := l3 }, d6),
       ({ high := 5, low := m4 }, d7), ({ high := h4, low := l4 }, d8),
       ({ high := 5, low := m5 }, d9), ({ high := h5, low := l5 }, d10),
       ({ high := 0xC, low := n1 }, e1), ({ high := 0xC, low := n2 }, e2),
       ({ high := 0xC, low := n3 }, e3)]).map CPU4004.pc = some r3 ∧
    (run_steps s
      [({ high := 5, low := m1 }, d1), ({ high := h1, low := l1 }, d2),
       ({ high := 5, low := m2 }, d3), ({ high := h2, low := l2 }, d4),
       ({ high := 5, low := m3 }, d5), ({ high := h3, low := l3 }, d6),
       ({ high := 5, low := m4 }, d7), ({ high := h4, low := l4 }, d8),
       ({ high := 5, low := m5 }, d9), ({ high := h5, low := l5 }, d10),
       ({ high := 0xC, low := n1 }, e1), ({ high := 0xC, low := n2 }, e2),
       ({ high := 0xC, low := n3 }, e3), ({ high := 0xC, low := n4 }, e4)]).map CPU4004.pc =
      some r2 ∧
    r5 ≠ r1 ∧ r4 ≠ r1 ∧ r3 ≠ r1 ∧ r2 ≠ r1 := by
  obtain ⟨hd2, hd3, hd4, hd5⟩ := hdist
  obtain ⟨cf, pm, co, pc, stk, ea, p, op, ca, te, ac, rg⟩ := s
  simp only at hstart hea hpush hr1 hr2 hr3 hr4 hr5
  subst hstart
  subst hr1 hr2 hr3 hr4 hr5
  have hand3eq : ∀ x : Nat, x &&& 3 = x % 4 := by
    intro x
    have h := Nat.and_pow_two_sub_one_eq_mod x 2
    norm_num at h
    exact h
  have hand4095 : ∀ x : Nat, x &&& 4095 = x % 4096 := by
    intro x
    have h := Nat.and_pow_two_sub_one_eq_mod x 12
    norm_num at h
    exact h
  have hand3 : ∀ x : Nat, x &&& 3 < 4 := by
    intro x
    rw [hand3eq]
    omega
  have hq1 : (p + 1) % 256 = p + 1 := by omega
  have hq2 : (p + 1 + 1) % 256 = p + 1 + 1 := by omega
  have hq3 : (p + 1 + 1 + 1) % 256 = p + 1 + 1 + 1 := by omega
  have hq4 : (p + 1 + 1 + 1 + 1) % 256 = p + 1 + 1 + 1 + 1 := by omega
  have hq5 : (p + 1 + 1 + 1 + 1 + 1) % 256 = p + 1 + 1 + 1 + 1 + 1 := by omega
  refine ⟨?_, ?_, ?_, ?_, Ne.symm hd5, Ne.symm hd4, Ne.symm hd3, Ne.symm hd2⟩
  · rw [run_steps_jms _ rfl, run_steps_call_second _ rfl hea,
      run_steps_jms _ rfl, run_steps_call_second _ rfl (hand3 _),
      run_steps_jms _ rfl, run_steps_call_second _ rfl (hand3 _),
      run_steps_jms _ rfl, run_steps_call_second _ rfl (hand3 _),
      run_steps_jms _ rfl, run_steps_call_second _ rfl (hand3 _)]
    simp only [hq1, hq2, hq3, hq4, hq5]
    rw [run_steps_bbl_pop _ rfl (by change 0 < p + 1 + 1 + 1 + 1 + 1; omega)]
    interval_cases ea <;>
      (simp only [run_steps, hand3eq, hand4095]
       simp)
  · rw [run_steps_jms _ rfl, run_steps_call_second _ rfl hea,
      run_steps_jms _ rfl, run_steps_call_second _ rfl (hand3 _),
      run_steps_jms _ rfl, run_steps_call_second _ rfl (hand3 _),
      run_steps_jms _ rfl, run_steps_call_second _ rfl (hand3 _),
      run_steps_jms _ rfl, run_steps_call_second _ rfl (hand3 _)]
    simp only [hq1, hq2, hq3, hq4, hq5]
    rw [run_steps_bbl_pop _ rfl (by change 0 < p + 1 + 1 + 1 + 1 + 1; omega),
      run_steps_bbl_pop _ rfl (by change 0 < p + 1 + 1 + 1 + 1 + 1 - 1; omega)]
    interval_cases ea <;>
      (simp only [run_steps, hand3eq, hand4095]
       simp)
  · rw [run_steps_jms _ rfl, run_steps_call_second _ rfl hea,
      run_steps_jms _ rfl, run_steps_call_second _ rfl (hand3 _),
      run_steps_jms _ rfl, run_steps_call_second _ rfl (hand3 _),
      run_steps_jms _ rfl, run_steps_call_second _ rfl (hand3 _),
      run_steps_jms _ rfl, run_steps_call_second _ rfl (hand3 _)]
    simp only [hq1, hq2, hq3, hq4, hq5]
    rw [run_steps_bbl_pop _ rfl (by change 0 < p + 1 + 1 + 1 + 1 + 1; omega),
      run_steps_bbl_pop _ rfl (by change 0 < p + 1 + 1 + 1 + 1 + 1 - 1; omega),
      run_steps_bbl_pop _ rfl (by change 0 < p + 1 + 1 + 1 + 1 + 1 - 1 - 1; omega)]
    interval_cases ea <;>
      (simp only [run_steps, hand3eq, hand4095]
       simp)
  · rw [run_steps_jms _ rfl, run_steps_call_second _ rfl hea,
      run_steps_jms _ rfl, run_steps_call_second _ rfl (hand3 _),
      run_steps_jms _ rfl, run_steps_call_second _ rfl (hand3 _),
      run_steps_jms _ rfl, run_steps_call_second _ rfl (hand3 _),
      run_steps_jms _ rfl, run_steps_call_second _ rfl (hand3 _)]
    simp only [hq1, hq2, hq3, hq4, hq5]
    rw [run_steps_bbl_pop _ rfl (by change 0 < p + 1 + 1 + 1 + 1 + 1; omega),
      run_steps_bbl_pop _ rfl (by change 0 < p + 1 + 1 + 1 + 1 + 1 - 1; omega),
      run_steps_bbl_pop _ rfl (by change 0 < p + 1 + 1 + 1 + 1 + 1 - 1 - 1; omega),
      run_steps_bbl_pop _ rfl (by change 0 < p + 1 + 1 + 1 + 1 + 1 - 1 - 1 - 1; omega)]
    interval_cases ea <;>
      (simp only [run_steps, hand3eq, hand4095]
       simp)

/-- Witness for the amended C3 at the concrete state `c3CPU` (push counter
0, stack index 0) and calls to `0x100 … 0x500`. -/
theorem cpu4004_stack_wraparound_witness :
    (run_steps c3CPU (c3Calls ++ [c3BBL])).map CPU4004.pc = some 0x402 ∧
    (0x402 : Nat) ≠ 0x702 := by
  have h := cpu4004_stack_wraparound c3CPU rfl (by decide) (by decide)
    1 0 0 2 0 0 3 0 0 4 0 0 5 0 0 0 0 0 0
    0 0 0 0 0 0 0 0 0 0 0 0 0 0
    0x702 0x102 0x202 0x302 0x402
    (by decide) (by decide) (by decide) (by decide) (by decide)
    ⟨by decide, by decide, by decide, by decide⟩
  exact ⟨h.1, by decide⟩

/-- `src/cpu/i8080.rs` `PSW`: accumulator in bits 8–15, sign bit 7, zero bit
6, aux bit 4, parity bit 2, carry bit 0. -/
structure PSW where
  acc : Nat
  sign : Bool
  zero : Bool
  aux : Bool
  parity : Bool
  carry : Bool
deriving DecidableEq, Repr

/-- The raw `u16` value of the PSW bitfield. -/
def PSW.raw (p : PSW) : Nat :=
  ((p.acc &&& 0xFF) <<< 8) ||| (if p.sign then 0x80 else 0) ||| (if p.zero then 0x40 else 0) |||
    (if p.aux then 0x10 else 0) ||| (if p.parity then 0x4 else 0) ||| (if p.carry then 0x1 else 0)

/-- Rebuild the PSW bitfield from a raw `u16` value. -/
def PSW.of_raw (v : Nat) : PSW :=
  { acc := (v >>> 8) &&& 0xFF, sign := v.testBit 7, zero := v.testBit 6,
    aux := v.testBit 4, parity := v.testBit 2, carry := v.testBit 0 }

/-- `src/cpu/i8080.rs` `Registers`: PSW plus the BC, DE and HL pairs (raw
16-bit words, high byte in bits 8–15). -/
structure Registers where
  psw : PSW
  bc : Nat
  de : Nat
  hl : Nat
deriving DecidableEq, Repr

/-- `src/cpu/i8080.rs` `I8080`: the generic `CPU<u16>` (stack pointer and
program counter) plus the main registers and the interrupt flag. -/
structure I8080 where
  sp : Nat
  pc : Nat
  regs : Registers
  interrupts_enabled : Bool
deriving DecidableEq, Repr

/-- The memory/port collaborator behind the `IO` trait: byte memory, input
ports and the last value written to each output port. -/
structure IO8080 where
  mem : Nat → Nat
  inPort : Nat → Nat
  outPort : Nat → Nat

/-- High byte of a 16-bit `Word`. -/
def word_high (w : Nat) : Nat := (w >>> 8) &&& 0xFF

/-- Low byte of a 16-bit `Word`. -/
def word_low (w : Nat) : Nat := w &&& 0xFF

/-- Replace the high byte of a 16-bit `Word`. -/
def word_with_high (w v : Nat) : Nat := (w &&& 0xFF) ||| ((v &&& 0xFF) <<< 8)

/-- Replace the low byte of a 16-bit `Word`. -/
def word_with_low (w v : Nat) : Nat := (w &&& 0xFF00) ||| (v &&& 0xFF)

/-- `ReadArr for u16`: little-endian 16-bit read at `addr`. -/
def read_mem16 (io : IO8080) (addr : Nat) : Nat :=
  io.mem addr + 256 * io.mem (addr + 1)

/-- `WriteArr for u16`: little-endian 16-bit write at `addr`. -/
def write_mem16 (io : IO8080) (addr value : Nat) : IO8080 :=
  { io with mem := fun a =>
      if a = addr then value &&& 0xFF
      else if a = addr + 1 then (value >>> 8) &&& 0xFF
      else io.mem a }

/-- `CPU::<u16>::next_code_byte`: fetch at `pc`, advance `pc` (wrapping). -/
def next_code_byte (cpu : I8080) (io : IO8080) : Nat × I8080 :=
  (io.mem cpu.pc, { cpu with pc := (cpu.pc + 1) % 65536 })

/-- `CPU::<u16>::next_code_word`: fetch a little-endian word, advance `pc`
by two (wrapping). -/
def next_code_word (cpu : I8080) (io : IO8080) : Nat × I8080 :=
  (read_mem16 io cpu.pc, { cpu with pc := (cpu.pc + 2) % 65536 })

/-- `CPU::<u16>::push`: pre-decrement `sp` by two (wrapping) and store. -/
def cpu_push (cpu : I8080) (io : IO8080) (value : Nat) : I8080 × IO8080 :=
  let sp := (cpu.sp + 65534) % 65536
  ({ cpu with sp := sp }, write_mem16 io sp value)

/-- `CPU::<u16>::pop`: load at `sp` and post-increment by two (wrapping). -/
def cpu_pop (cpu : I8080) (io : IO8080) : Nat × I8080 :=
  (read_mem16 io cpu.sp, { cpu with sp := (cpu.sp + 2) % 65536 })

/-- `I8080::read_reg`: B C D E H L [HL] A by 3-bit index. -/
def read_reg (cpu : I8080) (io : IO8080) (index : Nat) : Nat :=
  if index = 0 then word_high cpu.regs.bc
  else if index = 1 then word_low cpu.regs.bc
  else if index = 2 then word_high cpu.regs.de
  else if index = 3 then word_low cpu.regs.de
  else if index = 4 then word_high cpu.regs.hl
  else if index = 5 then word_low cpu.regs.hl
  else if index = 6 then io.mem cpu.regs.hl
  else cpu.regs.psw.acc

/-- `I8080::write_reg` (index 6 writes memory at HL). -/
def write_reg (cpu : I8080) (io : IO8080) (index value : Nat) : I8080 × IO8080 :=
  if index = 0 then ({ cpu with regs.bc := word_with_high cpu.regs.bc value }, io)
  else if index = 1 then ({ cpu with regs.bc := word_with_low cpu.regs.bc value }, io)
  else if index = 2 then ({ cpu with regs.de := word_with_high cpu.regs.de value }, io)
  else if index = 3 then ({ cpu with regs.de := word_with_low cpu.regs.de value }, io)
  else if index = 4 then ({ cpu with regs.hl := word_with_high cpu.regs.hl value }, io)
  else if index = 5 then ({ cpu with regs.hl := word_with_low cpu.regs.hl value }, io)
  else if index = 6 then (cpu, { io with mem := fun a =>
    if a = cpu.regs.hl then value else io.mem a })
  else ({ cpu with regs.psw := { cpu.regs.psw with acc := value } }, io)

/-- `I8080::read_pair`: BC DE HL SP by 2-bit index. -/
def read_pair (cpu : I8080) (index : Nat) : Nat :=
  if index = 0 then cpu.regs.bc
  else if index = 1 then cpu.regs.de
  else if index = 2 then cpu.regs.hl
  else cpu.sp

/-- `I8080::write_pair`. -/
def write_pair (cpu : I8080) (index value : Nat) : I8080 :=
  if index = 0 then { cpu with regs.bc := value }
  else if index = 1 then { cpu with regs.de := value }
  else if index = 2 then { cpu with regs.hl := value }
  else { cpu with sp := value }

/-- `I8080::read_pair_push` (index 3 is the PSW). -/
def read_pair_push (cpu : I8080) (index : Nat) : Nat :=
  if index = 0 then cpu.regs.bc
  else if index = 1 then cpu.regs.de
  else if index = 2 then cpu.regs.hl
  else cpu.regs.psw.raw

/-- `I8080::write_pair_pop` (index 3 is the PSW). -/
def write_pair_pop (cpu : I8080) (index value : Nat) : I8080 :=
  if index = 0 then { cpu with regs.bc := value }
  else if index = 1 then { cpu with regs.de := value }
  else if index = 2 then { cpu with regs.hl := value }
  else { cpu with regs.psw := PSW.of_raw value }

/-- `I8080::test_condition`: NZ Z NC C PO PE P M. -/
def test_condition (cpu : I8080) (condition : Nat) : Bool :=
  if condition = 0 then !cpu.regs.psw.zero
  else if condition = 1 then cpu.regs.psw.zero
  else if condition = 2 then !cpu.regs.psw.carry
  else if condition = 3 then cpu.regs.psw.carry
  else if condition = 4 then !cpu.regs.psw.parity
  else if condition = 5 then cpu.regs.psw.parity
  else if condition = 6 then !cpu.regs.psw.sign
  else cpu.regs.psw.sign

/-- `u8::count_ones`. -/
def count_ones (n : Nat) : Nat :=
  if n = 0 then 0 else n % 2 + count_ones (n / 2)

/-- `I8080::set_result_flags`: sign, zero and parity from a result byte. -/
def set_result_flags (cpu : I8080) (result : Nat) : I8080 :=
  { cpu with regs.psw :=
      { cpu.regs.psw with
          sign := decide (result &&& 0b10000000 = 0b10000000),
          zero := decide (result = 0),
          parity := decide (count_ones result % 2 = 0) } }

/-- `u8::rotate_left(4)`. -/
def rotate_left4 (o : Nat) : Nat := ((o <<< 4) &&& 0xFF) ||| ((o &&& 0xFF) >>> 4)

/-- `src/cpu/i8080.rs` `rotate_index`: `opcode.rotate_left(1) & 0b111`. -/
def rotate_index (o : Nat) : Nat := (((o <<< 1) &&& 0xFF) ||| ((o &&& 0xFF) >>> 7)) &&& 0b111

/-- `src/cpu/i8080.rs` `u3_index`: `opcode & 0b111`. -/
def u3_index (o : Nat) : Nat := o &&& 0b111

/-- `I8080::decode2`: the ALU block `0x80..=0xBF` (ADD ADC SUB SBB ANA XRA
ORA CMP on the register selected by the low three bits).  CMP skips the
accumulator write-back but sets every flag from the subtraction. -/
def decode2 (cpu : I8080) (io : IO8080) (opcode : Nat) : I8080 :=
  let index := u3_index opcode
  let byte := read_reg cpu io index
  let r : Nat × Bool × Bool :=
    if 0x80 ≤ opcode ∧ opcode ≤ 0x87 then execute_add cpu.regs.psw.acc byte
    else if 0x88 ≤ opcode ∧ opcode ≤ 0x8F then
      execute_add_carry cpu.regs.psw.acc byte cpu.regs.psw.carry
    else if 0x90 ≤ opcode ∧ opcode ≤ 0x97 then execute_sub cpu.regs.psw.acc byte
    else if 0x98 ≤ opcode ∧ opcode ≤ 0x9F then
      execute_sub_carry cpu.regs.psw.acc byte cpu.regs.psw.carry
    else if 0xA0 ≤ opcode ∧ opcode ≤ 0xA7 then (cpu.regs.psw.acc &&& byte, false, false)
    else if 0xA8 ≤ opcode ∧ opcode ≤ 0xAF then (cpu.regs.psw.acc ^^^ byte, false, false)
    else if 0xB0 ≤ opcode ∧ opcode ≤ 0xB7 then (cpu.regs.psw.acc ||| byte, false, false)
    else execute_sub cpu.regs.psw.acc byte
  let cpu :=
    if 0xB8 ≤ opcode ∧ opcode ≤ 0xBF then cpu
    else { cpu with regs.psw := { cpu.regs.psw with acc := r.1 } }
  let cpu := { cpu with regs.psw := { cpu.regs.psw with carry := r.2.1, aux := r.2.2 } }
  set_result_flags cpu r.1

/-- `I8080::decode3`: the remaining opcode block, decoded after
`opcode.rotate_left(4)`; the final `0xEF | _` arm is CPI, which computes
`execute_sub(acc, immediate)` and sets every flag without writing the
accumulator. -/
def decode3 (cpu : I8080) (io : IO8080) (opcode : Nat) : I8080 × IO8080 :=
  let o := rotate_left4 opcode
  if (0x0C ≤ o ∧ o ≤ 0x0F) ∨ (0x8C ≤ o ∧ o ≤ 0x8F) then
    let index := rotate_index o
    if test_condition cpu index then
      let p := cpu_pop cpu io
      ({ p.2 with pc := p.1 }, io)
    else (cpu, io)
  else if 0x1C ≤ o ∧ o ≤ 0x1F then
    let to_index := o &&& 0b11
    let p := cpu_pop cpu io
    (write_pair_pop p.2 to_index p.1, io)
  else if (0x2C ≤ o ∧ o ≤ 0x2F) ∨ (0xAC ≤ o ∧ o ≤ 0xAF) then
    let index := rotate_index o
    let f := next_code_word cpu io
    (if test_condition f.2 index then { f.2 with pc := f.1 } else f.2, io)
  else if o = 0x3C ∨ o = 0xBC then
    let f := next_code_word cpu io
    ({ f.2 with pc := f.1 }, io)
  else if o = 0x3D then
    let f := next_code_byte cpu io
    (f.2, { io with outPort := fun p =>
      if p = f.1 then cpu.regs.psw.acc else io.outPort p })
  else if o = 0x3E then
    let value := read_mem16 io cpu.sp
    let io := write_mem16 io cpu.sp cpu.regs.hl
    ({ cpu with regs.hl := value }, io)
  else if o = 0x3F then
    ({ cpu with interrupts_enabled := false }, io)
  else if (0x4C ≤ o ∧ o ≤ 0x4F) ∨ (0xCC ≤ o ∧ o ≤ 0xCF) then
    let index := rotate_index o
    let f := next_code_word cpu io
    if test_condition f.2 index then
      let p := cpu_push f.2 io f.2.pc
      ({ p.1 with pc := f.1 }, p.2)
    else (f.2, io)
  else if 0x5C ≤ o ∧ o ≤ 0x5F then
    let from_index := o &&& 0b11
    let value := read_pair_push cpu from_index
    cpu_push cpu io value
  else if o = 0x6C then
    let f := next_code_byte cpu io
    let r := execute_add f.2.regs.psw.acc f.1
    let cpu := { f.2 with regs.psw :=
      { f.2.regs.psw with acc := r.1, carry := r.2.1, aux := r.2.2 } }
    (set_result_flags cpu r.1, io)
  else if o = 0x6D then
    let f := next_code_byte cpu io
    let r := execute_sub f.2.regs.psw.acc f.1
    let cpu := { f.2 with regs.psw :=
      { f.2.regs.psw with acc := r.1, carry := r.2.1, aux := r.2.2 } }
    (set_result_flags cpu r.1, io)
  else if o = 0x6E then
    let f := next_code_byte cpu io
    let result := f.2.regs.psw.acc &&& f.1
    let cpu := { f.2 with regs.psw :=
      { f.2.regs.psw with acc := result, carry := false, aux := false } }
    (set_result_flags cpu result, io)
  else if o = 0x6F then
    let f := next_code_byte cpu io
    let result := f.2.regs.psw.acc ||| f.1
    let cpu := { f.2 with regs.psw :=
      { f.2.regs.psw with acc := result, carry := false, aux := false } }
    (set_result_flags cpu result, io)
  else if (0x7C ≤ o ∧ o ≤ 0x7F) ∨ (0xFC ≤ o ∧ o ≤ 0xFF) then
    let index := rotate_index o
    let p := cpu_push cpu io cpu.pc
    ({ p.1 with pc := index <<< 3 }, p.2)
  else if o = 0x9C ∨ o = 0x9D then
    let p := cpu_pop cpu io
    ({ p.2 with pc := p.1 }, io)
  else if o = 0x9E then
    ({ cpu with pc := cpu.regs.hl }, io)
  else if o = 0x9F then
    ({ cpu with sp := cpu.regs.hl }, io)
  else if o = 0xBD then
    let f := next_code_byte cpu io
    ({ f.2 with regs.psw := { f.2.regs.psw with acc := io.inPort f.1 } }, io)
  else if o = 0xBE then
    ({ cpu with regs := { cpu.regs with hl := cpu.regs.de, de := cpu.regs.hl } }, io)
  else if o = 0xBF then
    ({ cpu with interrupts_enabled := true }, io)
  else if 0xDC ≤ o ∧ o ≤ 0xDF then
    let f := next_code_word cpu io
    let p := cpu_push f.2 io f.2.pc
    ({ p.1 with pc := f.1 }, p.2)
  else if o = 0xEC then
    let f := next_code_byte cpu io
    let r := execute_add_carry f.2.regs.psw.acc f.1 f.2.regs.psw.carry
    let cpu := { f.2 with regs.psw :=
      { f.2.regs.psw with acc := r.1, carry := r.2.1, aux := r.2.2 } }
    (set_result_flags cpu r.1, io)
  else if o = 0xED then
    let f := next_code_byte cpu io
    let r := execute_sub_carry f.2.regs.psw.acc f.1 f.2.regs.psw.carry
    let cpu := { f.2 with regs.psw :=
      { f.2.regs.psw with acc := r.1, carry := r.2.1, aux := r.2.2 } }
    (set_result_flags cpu r.1, io)
  else if o = 0xEE then
    let f := next_code_byte cpu io
    let result := f.2.regs.psw.acc ^^^ f.1
    let cpu := { f.2 with regs.psw :=
      { f.2.regs.psw with acc := result, carry := false, aux := false } }
    (set_result_flags cpu result, io)
  else
    let f := next_code_byte cpu io
    let r := execute_sub f.2.regs.psw.acc f.1
    let cpu := { f.2 with regs.psw :=
      { f.2.regs.psw with carry := r.2.1, aux := r.2.2 } }
    (set_result_flags cpu r.1, io)

/-- The frame/flag property of CMP r (opcode 0xB8+r) against SUB r
(opcode 0x90+r): identical carry, aux, sign, zero and parity; accumulator,
register pairs, sp, pc and the interrupt flag untouched. -/
def cmp_frame_flags (cpu : I8080) (io : IO8080) (r : Nat) : Prop :=
  let c := decode2 cpu io (0xB8 + r)
  let s := decode2 cpu io (0x90 + r)
  c.regs.psw.carry = s.regs.psw.carry ∧ c.regs.psw.aux = s.regs.psw.aux ∧
  c.regs.psw.sign = s.regs.psw.sign ∧ c.regs.psw.zero = s.regs.psw.zero ∧
  c.regs.psw.parity = s.regs.psw.parity ∧
  c.regs.psw.acc = cpu.regs.psw.acc ∧
  c.regs.bc = cpu.regs.bc ∧ c.regs.de = cpu.regs.de ∧ c.regs.hl = cpu.regs.hl ∧
  c.sp = cpu.sp ∧ c.pc = cpu.pc ∧ c.interrupts_enabled = cpu.interrupts_enabled

/-- The frame/flag property of CPI (opcode 0xFE) against SUI (opcode 0xD6):
identical flags, accumulator and registers untouched, pc advanced past the
immediate just as SUI does, memory untouched. -/
def cpi_frame_flags (cpu : I8080) (io : IO8080) : Prop :=
  let c := (decode3 cpu io 0xFE).1
  let cio := (decode3 cpu io 0xFE).2
  let s := (decode3 cpu io 0xD6).1
  c.regs.psw.carry = s.regs.psw.carry ∧ c.regs.psw.aux = s.regs.psw.aux ∧
  c.regs.psw.sign = s.regs.psw.sign ∧ c.regs.psw.zero = s.regs.psw.zero ∧
  c.regs.psw.parity = s.regs.psw.parity ∧
  c.regs.psw.acc = cpu.regs.psw.acc ∧
  c.regs.bc = cpu.regs.bc ∧ c.regs.de = cpu.regs.de ∧ c.regs.hl = cpu.regs.hl ∧
  c.sp = cpu.sp ∧ c.pc = s.pc ∧ c.pc = (cpu.pc + 1) % 65536 ∧
  c.interrupts_enabled = cpu.interrupts_enabled ∧
  (∀ a, cio.mem a = io.mem a)

/-- C10: every 8080 compare (CMP r for r = 0..7, opcodes 0xB8-0xBF, and the
immediate CPI, opcode 0xFE) sets carry, aux, sign, zero and parity exactly
as the corresponding subtraction (SUB r / SUI) of the operand from the
accumulator would, while leaving the accumulator, the BC, DE and HL pairs,
sp and (for CMP) pc unchanged; CPI advances pc past its immediate exactly
as SUI does and leaves memory untouched. -/
theorem i8080_compare_frame (cpu : I8080) (io : IO8080) (r : Nat) (hr : r < 8) :
    cmp_frame_flags cpu io r ∧ cpi_frame_flags cpu io := by
  constructor
  · interval_cases r <;>
      simp +decide [cmp_frame_flags, decode2, u3_index, read_reg, set_result_flags]
  · simp +decide [cpi_frame_flags, decode3, rotate_left4, rotate_index, next_code_byte,
      set_result_flags]

/-- Sample 8080 state for the C10 witness. -/
def sampleI8080 : I8080 :=
  { sp := 0x2400, pc := 0x100,
    regs :=
      { psw := { acc := 0x3A, sign := false, zero := false, aux := false,
                 parity := false, carry := true },
        bc := 0x1234, de := 0x5678, hl := 0x9ABC },
    interrupts_enabled := true }

/-- Sample memory/ports for the C10 witness. -/
def sampleIO8080 : IO8080 :=
  { mem := fun a => a % 256, inPort := fun a => 0, outPort := fun a => 0 }

/-- Witness for C10 at register index 3 (CMP E vs SUB E) on a concrete
machine state. -/
theorem i8080_compare_frame_witness :
    3 < 8 ∧ (cmp_frame_flags sampleI8080 sampleIO8080 3 ∧
      cpi_frame_flags sampleI8080 sampleIO8080) :=
  ⟨by decide, i8080_compare_frame sampleI8080 sampleIO8080 3 (by decide)⟩

end Chips
